import Mathlib

/-!
Verification of the TruckTalk Connect sheet-analysis engine.

The repository ships several variants of the same engine:
* `src/src/api.gs` — `mapHeaders` / `validateSheet` (namespace `Api` below);
* `src/src/Code.gs`, first section (lines 1-486) and the pure test
  utilities (lines 826-1176) — `groupIssues`, `handleChatMessage`,
  `analyzeActiveSheet`, `normalizeDateTime`, `isEmptyCell`
  (namespace `Code1` below);
* `src/src/Code.gs`, second section (lines 487-826) — `analyzeSheet` and the
  index-based `mapHeaders` (namespace `Code2` below).

Sheet cells are modelled as `String` (Apps Script `getValues()` yields `""`
for blank cells); JS `null`/`undefined` cell values are modelled as
`Option.none` where a function distinguishes them.  Quotation marks inside
user-facing message strings are dropped; everything else in the message
text is kept verbatim.
-/

/-- Severity of an issue: the source uses the string literals
`"error"` and `"warn"`. -/
inductive Severity where
  | error
  | warn
deriving DecidableEq

/-- `severity === "error"`. -/
def Severity.isError : Severity → Bool
  | .error => true
  | .warn => false

/-- JS `Array.prototype.indexOf`, returning `none` instead of `-1`. -/
def jsIndexOf (l : List String) (s : String) : Option Nat :=
  l.findIdx? (fun x => x = s)

/-- JS `String.prototype.includes` for a single character (kernel-reducible
replacement for `String.contains`). -/
def jsIncludes (s : String) (c : Char) : Bool :=
  s.toList.any (fun x => x = c)

/-- Whitespace as recognized by JS `String.prototype.trim`. -/
def isJsWhitespace (c : Char) : Bool :=
  c = ' ' || c = '\t' || c = '\n' || c = '\r'

/-- JS `String.prototype.trim` (kernel-reducible replacement for
`String.trim`). -/
def jsTrim (s : String) : String :=
  String.mk (((s.toList.dropWhile isJsWhitespace).reverse.dropWhile isJsWhitespace).reverse)

/-- JS `String.prototype.toLowerCase` (kernel-reducible replacement for
`String.toLower`). -/
def jsToLower (s : String) : String :=
  String.mk (s.toList.map Char.toLower)

/-- Deduplicate a list keeping first occurrences, in order.
`seen` is the accumulator of already-emitted values. -/
def dedupAux {α : Type} [DecidableEq α] : List α → List α → List α
  | _, [] => []
  | seen, x :: xs => if x ∈ seen then dedupAux seen xs else x :: dedupAux (x :: seen) xs

/-- `[...new Set(l)]`: JS `Set` iterates in insertion order, so spreading a
set built from a list deduplicates keeping first occurrences. -/
def jsSetDedup {α : Type} [DecidableEq α] (l : List α) : List α := dedupAux [] l

/-- JS `Array.prototype.join`. -/
def jsJoin (sep : String) : List String → String
  | [] => ""
  | [x] => x
  | x :: xs => x ++ sep ++ jsJoin sep xs

/-- A parsed calendar date-time, the shallow model of a valid JS `Date`.
The host timezone is modelled as UTC (timezone-free strings parse to the
fields they spell, exactly as Apps Script does when the script timezone
is UTC, which is what the repo's own test expectations assume). -/
structure DateTime where
  year : Nat
  month : Nat
  day : Nat
  hour : Nat
  minute : Nat
  second : Nat
  ms : Nat
deriving DecidableEq

def isLeapYear (y : Nat) : Bool :=
  y % 4 = 0 && (y % 100 ≠ 0 || y % 400 = 0)

def daysInMonth (y m : Nat) : Nat :=
  if m = 2 then (if isLeapYear y then 29 else 28)
  else if m = 4 ∨ m = 6 ∨ m = 9 ∨ m = 11 then 30
  else 31

def digitVal (c : Char) : Option Nat :=
  if c.isDigit then some (c.toNat - 48) else none

def parse2 : List Char → Option (Nat × List Char)
  | c1 :: c2 :: rest =>
    match digitVal c1, digitVal c2 with
    | some a, some b => some (10 * a + b, rest)
    | _, _ => none
  | _ => none

def parse4 : List Char → Option (Nat × List Char)
  | c1 :: c2 :: c3 :: c4 :: rest =>
    match digitVal c1, digitVal c2, digitVal c3, digitVal c4 with
    | some a, some b, some c, some d => some (1000 * a + 100 * b + 10 * c + d, rest)
    | _, _, _, _ => none
  | _ => none

def expectChar (c : Char) : List Char → Option (List Char)
  | x :: rest => if x = c then some rest else none
  | [] => none

/-- Parse the optional `.mmm` milliseconds part. -/
def parseMs : List Char → Option (Nat × List Char)
  | '.' :: c1 :: c2 :: c3 :: rest =>
    match digitVal c1, digitVal c2, digitVal c3 with
    | some a, some b, some c => some (100 * a + 10 * b + c, rest)
    | _, _, _ => none
  | l => some (0, l)

/-- Parse the optional `:SS` seconds part. -/
def parseSec : List Char → Option (Nat × List Char)
  | ':' :: rest =>
    match parse2 rest with
    | some (s, rest') => some (s, rest')
    | none => none
  | l => some (0, l)

/-- Parse an optional trailing `Z`. -/
def parseZ : List Char → Option (List Char)
  | 'Z' :: rest => some rest
  | l => some l

/-- The time-of-day part `HH:MM[:SS][.mmm][Z]`. -/
def parseTime (l : List Char) : Option (Nat × Nat × Nat × Nat) := do
  let (h, l) ← parse2 l
  let l ← expectChar ':' l
  let (mi, l) ← parse2 l
  let (s, l) ← parseSec l
  let (ms, l) ← parseMs l
  let l ← parseZ l
  if l = [] then some (h, mi, s, ms) else none

/-- Model of the V8 `new Date(string)` parser on the date/time shapes this
repository exercises: `YYYY-MM-DD`, optionally followed by `T` or a space
and `HH:MM[:SS][.mmm][Z]`, with field-range validation.  Strings of any
other shape (including the repo's `"Invalid Date"` and `"25/13/2025"`
probes) are treated as unparsable, matching `isNaN(date.getTime())`. -/
def jsParseDate (s : String) : Option DateTime := do
  let l := s.toList
  let (y, l) ← parse4 l
  let l ← expectChar '-' l
  let (mo, l) ← parse2 l
  let l ← expectChar '-' l
  let (d, l) ← parse2 l
  let (h, mi, sec, ms) ←
    match l with
    | [] => some (0, 0, 0, 0)
    | c :: rest => if c = 'T' ∨ c = ' ' then parseTime rest else none
  if 1 ≤ mo ∧ mo ≤ 12 ∧ 1 ≤ d ∧ d ≤ daysInMonth y mo ∧ h < 24 ∧ mi < 60 ∧ sec < 60 then
    some ⟨y, mo, d, h, mi, sec, ms⟩
  else
    none

def padNum (w n : Nat) : String :=
  let s := toString n
  String.mk (List.replicate (w - s.length) '0') ++ s

/-- JS `Date.prototype.toISOString`. -/
def toISOString (d : DateTime) : String :=
  padNum 4 d.year ++ "-" ++ padNum 2 d.month ++ "-" ++ padNum 2 d.day ++ "T" ++
    padNum 2 d.hour ++ ":" ++ padNum 2 d.minute ++ ":" ++ padNum 2 d.second ++ "." ++
    padNum 3 d.ms ++ "Z"

/-- `date.setHours(date.getHours() + 4)`: add four hours with calendar
rollover (at most one day of carry is possible). -/
def addFourHours (d : DateTime) : DateTime :=
  if d.hour + 4 < 24 then { d with hour := d.hour + 4 }
  else
    let d' := { d with hour := d.hour + 4 - 24 }
    if d.day + 1 ≤ daysInMonth d.year d.month then { d' with day := d.day + 1 }
    else if d.month + 1 ≤ 12 then { d' with day := 1, month := d.month + 1 }
    else { d' with day := 1, month := 1, year := d.year + 1 }

/-- The regex `/[A-Z]{2,3}$/` from `normalizeDateTime`: matches exactly when
the string ends in (at least) two uppercase ASCII letters. -/
def endsTwoUpper (s : String) : Bool :=
  match s.toList.reverse with
  | a :: b :: _ => a.isUpper && b.isUpper
  | _ => false

/-- The regex `/^\d{4}-\d{2}-\d{2}T\d{2}:\d{2}:\d{2}(\.\d{3})?Z?$/` used by
`analyzeSheet` to decide whether a valid date is already in ISO form. -/
def isIsoShaped (s : String) : Bool :=
  let l := s.toList
  (Option.isSome <| do
    let (_, l) ← parse4 l
    let l ← expectChar '-' l
    let (_, l) ← parse2 l
    let l ← expectChar '-' l
    let (_, l) ← parse2 l
    let l ← expectChar 'T' l
    let (_, l) ← parse2 l
    let l ← expectChar ':' l
    let (_, l) ← parse2 l
    let l ← expectChar ':' l
    let (_, l) ← parse2 l
    let (_, l) ← parseMs l
    let l ← parseZ l
    if l = [] then some () else none)

namespace Code1

/-- Issue record as used by the first section of `src/src/Code.gs`.
Absent `rows` is modelled as `[]` (the two are treated identically by
`groupIssues`); absent `column`/`suggestion` as `none`. -/
structure Issue where
  code : String
  severity : Severity
  message : String
  rows : List Nat := []
  column : Option String := none
  suggestion : Option String := none
deriving DecidableEq

/-- A load record coming back from the model call; its content is opaque
to the glue code embedded here. -/
abbrev Load := List (String × String)

/-- The result envelope of `src/src/Code.gs` (first section): `meta` is
reduced to `analyzedRows` (`analyzedAt` is a wall-clock timestamp and is
not modelled); an absent `loads` key is `none`. -/
structure Envelope where
  ok : Bool
  issues : List Issue
  mapping : List (String × String)
  analyzedRows : Nat
  loads : Option (List Load) := none
deriving DecidableEq

/-- The grouping key `issue.code + "|" + (issue.column || "")` from
`groupIssues` (src/src/Code.gs line 324). -/
def key (i : Issue) : String :=
  i.code ++ "|" ++ i.column.getD ""

/-- One step of the `issues.forEach` in `groupIssues`: insert into the
insertion-ordered map, merging `rows` as
`[...new Set([...existing.rows, ...issue.rows])]` on a key hit. -/
def addIssue : List (String × Issue) → Issue → List (String × Issue)
  | [], i => [(key i, i)]
  | (k, j) :: rest, i =>
    if k = key i then (k, { j with rows := jsSetDedup (j.rows ++ i.rows) }) :: rest
    else (k, j) :: addIssue rest i

/-- `groupIssues` (src/src/Code.gs lines 321-334): group issues by
`(code, column)`, merging row lists; `Object.values` returns the grouped
issues in key-insertion order. -/
def groupIssues (issues : List Issue) : List Issue :=
  (issues.foldl addIssue []).map Prod.snd

/-- `normalizeDateTime` (src/src/Code.gs lines 1006-1022): returns `null`
for empty or unparsable input; when the input has no timezone evidence
(no `'Z'`, no `'+'`, no two trailing uppercase letters) it assumes ET and
adds four hours before emitting `toISOString()`. -/
def normalizeDateTime (input : String) : Option String :=
  if input = "" then none
  else
    match jsParseDate input with
    | none => none
    | some d =>
      if !(jsIncludes input 'Z') && !(jsIncludes input '+') && !(endsTwoUpper input) then
        some (toISOString (addFourHours d))
      else
        some (toISOString d)

/-- `isEmptyCell` (src/src/Code.gs lines 1134-1137); `none` models a
`null`/`undefined` cell value. -/
def isEmptyCell (value : Option String) : Bool :=
  match value with
  | none => true
  | some s => jsTrim s = ""

/-- The default suggestion attached after grouping
(src/src/Code.gs lines 297-300). -/
def fillSuggestion (i : Issue) : Issue :=
  { i with suggestion := some (i.suggestion.getD "Please review and update the sheet manually.") }

/-- The `NO_DATA` envelope returned for a sheet with fewer than two rows
(src/src/Code.gs lines 277-288). -/
def noDataEnvelope : Envelope :=
  { ok := false
    issues := [{ code := "NO_DATA", severity := .error, message := "Sheet has no data rows." }]
    mapping := []
    analyzedRows := 0 }

/-- `analyzeActiveSheet` (src/src/Code.gs lines 273-315).  The two
`callOpenAI` network calls are effectful collaborators; their parsed
results are the `ai` and `aiLoads` parameters. -/
def analyzeActiveSheet (data : List (List String)) (ai aiLoads : Envelope)
    (returnLoads : Bool) : Envelope :=
  if data.length < 2 then noDataEnvelope
  else
    let r := { ai with issues := (groupIssues ai.issues).map fillSuggestion }
    if returnLoads then
      match r.loads with
      | some _ => r
      | none => { r with loads := aiLoads.loads }
    else
      { r with loads := none }

/-- The catch-all error envelope of `handleChatMessage`
(src/src/Code.gs lines 65-76). -/
def errorEnvelope (msg : String) : Envelope :=
  { ok := false
    issues := [{ code := "ERROR", severity := .error, message := msg }]
    mapping := []
    analyzedRows := 0 }

/-- `handleChatMessage` (src/src/Code.gs lines 47-77): the dispatched body
(`analyzeActiveSheet`, `applyFix` or `runChatAI`) performs sheet and
network I/O; its outcome — a normal envelope or a thrown error message —
is the `run` parameter.  The surrounding `try`/`catch` turns a thrown
error into the synthesized `"ERROR"` envelope. -/
def handleChatMessage (run : Except String Envelope) : Envelope :=
  match run with
  | .ok r => r
  | .error msg => errorEnvelope msg

end Code1

/-- C1: the claim says `normalizeDateTime` flags parseable timezone-free
input as `{ok:false, reason:'missing_timezone'}`.  The code instead
assumes ET: on `"2025-09-10 14:00:00"` it returns the ISO string four
hours ahead, not a failure. -/
theorem c1_normalizeDateTime_counterexample :
    Code1.normalizeDateTime "2025-09-10 14:00:00" = some "2025-09-10T18:00:00.000Z" ∧
      (Code1.normalizeDateTime "2025-09-10 14:00:00").isSome = true := by
  constructor <;> decide

/-- C1 (amended): `normalizeDateTime` never reports a missing timezone.
For every non-empty input that parses and carries no timezone evidence
(no `'Z'`, no `'+'`, and no two trailing uppercase letters), it assumes
ET, adds four hours, and returns the resulting ISO string; empty or
unparsable input yields `null`. -/
theorem c1_normalizeDateTime_assumes_et (s : String) (d : DateTime)
    (hne : s ≠ "") (hp : jsParseDate s = some d)
    (hz : jsIncludes s 'Z' = false) (hplus : jsIncludes s '+' = false)
    (hup : endsTwoUpper s = false) :
    Code1.normalizeDateTime s = some (toISOString (addFourHours d)) := by
  unfold Code1.normalizeDateTime
  rw [if_neg hne, hp, hz, hplus, hup]
  simp

theorem c1_normalizeDateTime_assumes_et_witness :
    Code1.normalizeDateTime "2025-09-10 00:00:00" =
      some (toISOString (addFourHours ⟨2025, 9, 10, 0, 0, 0, 0⟩)) :=
  c1_normalizeDateTime_assumes_et "2025-09-10 00:00:00" ⟨2025, 9, 10, 0, 0, 0, 0⟩
    (by decide) (by decide) (by decide) (by decide) (by decide)

namespace Api

/-- Issue record as used by `src/src/api.gs`; absent optional keys are
modelled as `[]`/`none`. -/
structure Issue where
  code : String
  severity : Severity
  message : String
  rows : List Nat := []
  column : Option String := none
  suggestion : Option String := none
deriving DecidableEq

/-- A Load under construction in `validateSheet`: an insertion-ordered
record keyed by canonical field; a value of `none` models JS `null`. -/
abbrev Load := List (String × Option String)

/-- `load[field]` as an `Option`: `none` for both an absent key and a
`null` value (the two are indistinguishable to every check performed). -/
def Load.read (l : Load) (f : String) : Option String :=
  (l.lookup f).join

/-- `load[field] = v`, replacing the value at an existing key in place. -/
def Load.set : Load → String → Option String → Load
  | [], f, v => [(f, v)]
  | (k, w) :: rest, f, v =>
    if k = f then (k, v) :: rest else (k, w) :: Load.set rest f v

/-- `AnalysisResult` of `src/src/api.gs`: `meta` reduced to
`analyzedRows` (`analyzedAt` is wall-clock time, not modelled); an absent
`loads` key is `none`. -/
structure AnalysisResult where
  ok : Bool
  issues : List Issue
  mapping : List (String × String)
  analyzedRows : Nat
  loads : Option (List Load) := none
deriving DecidableEq

/-- The synonym table local to `mapHeaders` (src/src/api.gs lines 67-78).
Note that no list contains the bare canonical field name itself. -/
def synonyms : List (String × List String) :=
  [ ("loadId", ["Load ID", "Ref", "VRID", "Reference", "Ref #"]),
    ("fromAddress", ["From", "PU", "Pickup", "Origin", "Pickup Address"]),
    ("fromAppointmentDateTimeUTC", ["PU Time", "Pickup Appt", "Pickup Date/Time"]),
    ("toAddress", ["To", "Drop", "Delivery", "Destination", "Delivery Address"]),
    ("toAppointmentDateTimeUTC", ["DEL Time", "Delivery Appt", "Delivery Date/Time"]),
    ("status", ["Status", "Load Status", "Stage"]),
    ("driverName", ["Driver", "Driver Name"]),
    ("driverPhone", ["Phone", "Driver Phone", "Contact"]),
    ("unitNumber", ["Unit", "Truck", "Truck #", "Tractor", "Unit Number"]),
    ("broker", ["Broker", "Customer", "Shipper"]) ]

def requiredFields : List String :=
  [ "loadId", "fromAddress", "fromAppointmentDateTimeUTC", "toAddress",
    "toAppointmentDateTimeUTC", "status", "driverName", "unitNumber", "broker" ]

def synonymsFor (f : String) : List String :=
  (synonyms.lookup f).getD []

/-- The `MISSING_COLUMN` issue pushed for an unmapped required field
(src/src/api.gs lines 95-101). -/
def missingColumnIssue (field : String) : Issue :=
  { code := "MISSING_COLUMN"
    severity := .error
    message := "Missing required column for field: " ++ field
    column := some field
    suggestion := some ("Add a column with a header like: " ++ jsJoin ", " (synonymsFor field)) }

/-- `mapHeaders` (src/src/api.gs lines 66-106): for each field, bind the
first header (in header order) whose lowercased, trimmed form occurs in
the field's lowercased synonym list; then push one `MISSING_COLUMN` error
per required field left unmapped (`!mapping[field]`). -/
def mapHeaders (headers : List String) : List (String × String) × List Issue :=
  let mapping := synonyms.filterMap (fun fs =>
    match headers.find? (fun h => (fs.2.map jsToLower).contains (jsTrim (jsToLower h))) with
    | some h => some (fs.1, h)
    | none => none)
  let issues := requiredFields.filterMap (fun field =>
    if (mapping.lookup field).getD "" = "" then some (missingColumnIssue field) else none)
  (mapping, issues)

def allowedStatuses : List String := ["Pending", "In Progress", "Completed", "Cancelled"]

/-- `row[headerRow.indexOf(mapping[field])] || null` (src/src/api.gs
lines 137-140); a missing column, an out-of-range index and an empty cell
all yield `null`. -/
def jsGetCell (headerRow row : List String) (h : String) : Option String :=
  match jsIndexOf headerRow h with
  | none => none
  | some c =>
    match row.get? c with
    | some s => if s = "" then none else some s
    | none => none

def mkMissingId (rowNumber : Nat) : Issue :=
  { code := "MISSING_ID", severity := .error
    message := "Missing loadId in row " ++ toString rowNumber
    suggestion := some "Add a unique loadId", rows := [rowNumber] }

def mkDuplicateId (v : String) (rowNumber : Nat) (col : Option String) : Issue :=
  { code := "DUPLICATE_ID", severity := .error
    message := "Duplicate loadId " ++ v ++ " in row " ++ toString rowNumber
    suggestion := some "Ensure all loadId values are unique"
    rows := [rowNumber], column := col }

def mkMissingDate (dateField : String) (rowNumber : Nat) (col : Option String) : Issue :=
  { code := "MISSING_DATE", severity := .warn
    message := "Missing date for " ++ dateField ++ " in row " ++ toString rowNumber
    suggestion := some "Fill in the missing date", rows := [rowNumber], column := col }

def mkInvalidDate (v : String) (rowNumber : Nat) (col : Option String) : Issue :=
  { code := "INVALID_DATE", severity := .error
    message := "Invalid date " ++ v ++ " in row " ++ toString rowNumber
    suggestion := some "Correct the date format (ISO 8601 recommended)"
    rows := [rowNumber], column := col }

def mkInvalidStatus (v : String) (rowNumber : Nat) (col : Option String) : Issue :=
  { code := "INVALID_STATUS", severity := .warn
    message := "Unrecognized status " ++ v ++ " in row " ++ toString rowNumber
    suggestion := some ("Consider normalizing to: " ++ jsJoin ", " allowedStatuses)
    rows := [rowNumber], column := col }

/-- The `loadId` presence / duplicate checks (src/src/api.gs lines
143-149), returning the issues pushed and the updated `loadIds` set. -/
def idCheck (mapping : List (String × String)) (load : Load) (rowNumber : Nat)
    (loadIds : List String) : List Issue × List String :=
  match load.read "loadId" with
  | none => ([mkMissingId rowNumber], loadIds)
  | some v =>
    if v ∈ loadIds then ([mkDuplicateId v rowNumber (mapping.lookup "loadId")], loadIds)
    else ([], loadIds ++ [v])

/-- One date-field check (src/src/api.gs lines 151-163): absent dates
warn, unparsable dates error, valid dates are normalized onto the load. -/
def dateCheck (mapping : List (String × String)) (rowNumber : Nat)
    (load : Load) (dateField : String) : List Issue × Load :=
  match load.read dateField with
  | none => ([mkMissingDate dateField rowNumber (mapping.lookup dateField)], load)
  | some s =>
    match jsParseDate s with
    | none => ([mkInvalidDate s rowNumber (mapping.lookup dateField)], load)
    | some d => ([], load.set dateField (some (toISOString d)))

/-- The status check (src/src/api.gs lines 165-170). -/
def statusCheck (mapping : List (String × String)) (rowNumber : Nat)
    (load : Load) (statusValues : List String) : List Issue × List String :=
  match load.read "status" with
  | none => ([], statusValues)
  | some v =>
    let sv := if v ∈ statusValues then statusValues else statusValues ++ [v]
    if v ∈ allowedStatuses then ([], sv)
    else ([mkInvalidStatus v rowNumber (mapping.lookup "status")], sv)

/-- Accumulated state of the `data.forEach` loop in `validateSheet`. -/
structure RowState where
  issues : List Issue
  loads : List Load
  loadIds : List String
  statusValues : List String
deriving DecidableEq

/-- The load object as first assembled from the row's mapped cells
(src/src/api.gs lines 135-140). -/
def buildLoad (headerRow : List String) (mapping : List (String × String))
    (row : List String) : Load :=
  mapping.map (fun fh => (fh.1, jsGetCell headerRow row fh.2))

/-- The load after the two date-normalization mutations. -/
def stepLoad (headerRow : List String) (mapping : List (String × String))
    (p : Nat × List String) : Load :=
  let rowNumber := p.1 + 2
  let load := buildLoad headerRow mapping p.2
  let load1 := (dateCheck mapping rowNumber load "fromAppointmentDateTimeUTC").2
  (dateCheck mapping rowNumber load1 "toAppointmentDateTimeUTC").2

/-- The issues pushed while processing one row, in push order: loadId
checks, the two date checks, then the status check. -/
def stepIssues (headerRow : List String) (mapping : List (String × String))
    (loadIds statusValues : List String) (p : Nat × List String) : List Issue :=
  let rowNumber := p.1 + 2
  let load := buildLoad headerRow mapping p.2
  let load1 := (dateCheck mapping rowNumber load "fromAppointmentDateTimeUTC").2
  (idCheck mapping load rowNumber loadIds).1
    ++ (dateCheck mapping rowNumber load "fromAppointmentDateTimeUTC").1
    ++ (dateCheck mapping rowNumber load1 "toAppointmentDateTimeUTC").1
    ++ (statusCheck mapping rowNumber (stepLoad headerRow mapping p) statusValues).1

/-- The `loadIds` set after processing one row. -/
def stepIds (headerRow : List String) (mapping : List (String × String))
    (loadIds : List String) (p : Nat × List String) : List String :=
  (idCheck mapping (buildLoad headerRow mapping p.2) (p.1 + 2) loadIds).2

/-- The `statusValues` set after processing one row. -/
def stepStatusVals (headerRow : List String) (mapping : List (String × String))
    (statusValues : List String) (p : Nat × List String) : List String :=
  (statusCheck mapping (p.1 + 2) (stepLoad headerRow mapping p) statusValues).2

/-- One iteration of the `data.forEach` in `validateSheet`
(src/src/api.gs lines 133-173): push the row's issues and its load, and
update the `loadIds` / `statusValues` sets. -/
def processRow (headerRow : List String) (mapping : List (String × String))
    (st : RowState) (p : Nat × List String) : RowState :=
  { issues := st.issues ++ stepIssues headerRow mapping st.loadIds st.statusValues p
    loads := st.loads ++ [stepLoad headerRow mapping p]
    loadIds := stepIds headerRow mapping st.loadIds p
    statusValues := stepStatusVals headerRow mapping st.statusValues p }

/-- `validateSheet` (src/src/api.gs lines 113-185), as a pure function of
the header row and the data rows the sheet ranges would supply. -/
def validateSheet (headerRow : List String) (data : List (List String)) : AnalysisResult :=
  let mh := mapHeaders headerRow
  if mh.2.any (fun i => i.severity.isError) then
    { ok := false, issues := mh.2, mapping := mh.1, analyzedRows := 0 }
  else
    let st := data.enum.foldl (processRow headerRow mh.1)
      { issues := mh.2, loads := [], loadIds := [], statusValues := [] }
    let errFree := (st.issues.filter (fun i => i.severity.isError)).length == 0
    { ok := errFree
      issues := st.issues
      mapping := mh.1
      analyzedRows := data.length
      loads := if errFree then some st.loads else none }

end Api

namespace Code2

/-- `REQUIRED_FIELDS` (src/src/Code.gs lines 493-503). -/
def REQUIRED_FIELDS : List String :=
  [ "loadId", "fromAddress", "fromAppointmentDateTimeUTC", "toAddress",
    "toAppointmentDateTimeUTC", "status", "driverName", "unitNumber", "broker" ]

/-- `HEADER_MAPPINGS` (src/src/Code.gs lines 506-517): here every field's
first alias is the field name itself. -/
def HEADER_MAPPINGS : List (String × List String) :=
  [ ("loadId", ["loadId", "load id", "ref", "vrid", "reference", "ref #"]),
    ("fromAddress", ["fromAddress", "from", "pu", "pickup", "origin", "pickup address", "pickup location"]),
    ("fromAppointmentDateTimeUTC", ["fromAppointmentDateTimeUTC", "pu time", "pickup appt", "pickup date/time"]),
    ("toAddress", ["toAddress", "to", "drop", "delivery", "destination", "delivery address", "delivery location"]),
    ("toAppointmentDateTimeUTC", ["toAppointmentDateTimeUTC", "del time", "delivery appt", "delivery date/time"]),
    ("status", ["status", "load status", "stage", "load status"]),
    ("driverName", ["driverName", "driver", "driver name", "driver/carrier"]),
    ("driverPhone", ["driverPhone", "phone", "driver phone", "contact"]),
    ("unitNumber", ["unitNumber", "unit", "truck", "truck #", "tractor", "unit number"]),
    ("broker", ["broker", "customer", "shipper"]) ]

/-- Scan a field's synonym list in declared order and return the index of
the first header matching a synonym (src/src/Code.gs lines 790-796). -/
def scanSyns (lows : List String) : List String → Option Nat
  | [] => none
  | syn :: rest =>
    match jsIndexOf lows (jsToLower syn) with
    | some idx => some idx
    | none => scanSyns lows rest

/-- The binding produced for one field entry of the synonym table: the
field paired with the first matching column index, if any. -/
def bindFor (lows : List String) (fs : String × List String) : Option (String × Nat) :=
  match scanSyns lows fs.2 with
  | some idx => some (fs.1, idx)
  | none => none

/-- `mapHeaders` (src/src/Code.gs lines 784-802): headers are lowercased
(not trimmed); the result maps each matched field to a column index, plus
the `allFound` flag. -/
def mapHeaders (headers : List String) : List (String × Nat) × Bool :=
  let lows := headers.map jsToLower
  let map := HEADER_MAPPINGS.filterMap (bindFor lows)
  (map, REQUIRED_FIELDS.all (fun f => (map.lookup f).isSome))

/-- The `action` object `{command:'selectCell', column, row}` attached to
per-cell issues in `analyzeSheet`. -/
structure Action where
  command : String
  column : Nat
  row : Nat
deriving DecidableEq

/-- Issue record as used by the second section of `src/src/Code.gs`.  The
no-data issue omits the `code` key in the source; that is modelled as
`""`. -/
structure Issue where
  code : String := ""
  severity : Severity
  message : String
  suggestion : Option String := none
  rows : List Nat := []
  column : Option String := none
  action : Option Action := none
deriving DecidableEq

/-- A Load built by `analyzeSheet`: required fields are stored with their
raw cell text; `driverPhone`, when mapped, is `row[col] || null`. -/
abbrev Load := List (String × Option String)

/-- `AnalysisResult` of `analyzeSheet`: `meta` reduced to `analyzedRows`;
the no-data branch omits `loads`, `mapping` and `meta`, modelled as
`none`, `[]` and `0`. -/
structure AnalysisResult where
  ok : Bool
  issues : List Issue
  loads : Option (List Load) := none
  mapping : List (String × Nat) := []
  analyzedRows : Nat := 0
deriving DecidableEq

/-- The grouping key `` `${code}-${column}` `` of the `addIssue` helper
(src/src/Code.gs line 624); an absent column interpolates as the string
`undefined`. -/
def key (i : Issue) : String :=
  i.code ++ "-" ++ (match i.column with | some c => c | none => "undefined")

/-- `addIssue` (src/src/Code.gs lines 623-633): group into the
insertion-ordered issue map, appending `rows` (without deduplication) on
a key hit. -/
def addIssue : List (String × Issue) → Issue → List (String × Issue)
  | [], i => [(key i, i)]
  | (k, j) :: rest, i =>
    if k = key i then (k, { j with rows := j.rows ++ i.rows }) :: rest
    else (k, j) :: addIssue rest i

/-- `row[c]` where an out-of-range or unmapped read yields a falsy value,
modelled as `""` (indistinguishable from an empty cell to every check
performed on it). -/
def cellAt (row : List String) (c : Option Nat) : String :=
  match c with
  | some ci => row.getD ci ""
  | none => ""

def noDataResult : AnalysisResult :=
  { ok := false
    issues := [{ severity := .error, message := "No data found in the sheet."
                 suggestion := some "Please ensure you have at least one header row and one data row." }] }

def mkMissingColumn (missingHeaders : List String) : Issue :=
  { code := "MISSING_COLUMN", severity := .error
    message := "Missing or misspelled required headers."
    suggestion := some ("Please ensure all required headers are present. Missing: " ++ jsJoin ", " missingHeaders)
    rows := [] }

def mkInconsistentStatus (statusValues : List String) : Issue :=
  { code := "INCONSISTENT_STATUS", severity := .warn
    message := "Inconsistent status vocabulary found."
    suggestion := some ("Please normalize your status values. Found: " ++ jsJoin ", " statusValues ++ ".")
    rows := [] }

def mkEmptyRequiredCell (field : String) (colIndex : Nat) (rowIndex : Nat) : Issue :=
  { code := "EMPTY_REQUIRED_CELL", severity := .error
    message := "Missing value for required field " ++ field ++ "."
    suggestion := some ("Enter a value in the column " ++ field ++ ".")
    rows := [rowIndex + 2], column := some field
    action := some { command := "selectCell", column := colIndex, row := rowIndex + 2 } }

def mkDuplicateId (loadId : Option String) (firstIndex index : Nat) : Issue :=
  { code := "DUPLICATE_ID", severity := .error
    message := "Duplicate loadId found: " ++ (match loadId with | some v => v | none => "undefined") ++ "."
    suggestion := some "Ensure each load has a unique ID."
    rows := [firstIndex + 2, index + 2], column := some "loadId" }

def mkBadDateFormat (field : String) (colIndex rowIndex : Nat) : Issue :=
  { code := "BAD_DATE_FORMAT", severity := .error
    message := "Invalid date/time format for field " ++ field ++ "."
    suggestion := some "Please use a valid ISO 8601 format."
    rows := [rowIndex + 2], column := some field
    action := some { command := "selectCell", column := colIndex, row := rowIndex + 2 } }

def mkNonIsoOutput (field : String) (colIndex rowIndex : Nat) : Issue :=
  { code := "NON_ISO_OUTPUT", severity := .warn
    message := "Date/time format for " ++ field ++ " is not ISO 8601."
    suggestion := some "Please normalize to ISO 8601 UTC."
    rows := [rowIndex + 2], column := some field
    action := some { command := "selectCell", column := colIndex, row := rowIndex + 2 } }

/-- The distinct non-empty trimmed status values of the data rows
(src/src/Code.gs line 637). -/
def statusValuesOf (rows : List (List String)) (c : Option Nat) : List String :=
  jsSetDedup (rows.filterMap (fun row =>
    match c with
    | none => none
    | some ci =>
      match row.get? ci with
      | none => none
      | some v =>
        if v = "" then none
        else if jsTrim v = "" then none else some (jsTrim v)))

/-- The inconsistent-status check (src/src/Code.gs lines 636-647). -/
def statusPhase (m : List (String × Issue)) (rows : List (List String))
    (c : Option Nat) : List (String × Issue) :=
  let sv := statusValuesOf rows c
  if sv.length > 1 then addIssue m (mkInconsistentStatus sv) else m

/-- The per-row required-field scan of one data row
(src/src/Code.gs lines 649-686). -/
def rowStep (map : List (String × Nat)) (acc : List (String × Issue) × List Load)
    (p : Nat × List String) : List (String × Issue) × List Load :=
  let st := REQUIRED_FIELDS.foldl (fun (st : List (String × Issue) × Load × Bool) field =>
    let cellValue := cellAt p.2 (map.lookup field)
    if cellValue = "" ∨ jsTrim cellValue = "" then
      (addIssue st.1 (mkEmptyRequiredCell field ((map.lookup field).getD 0) p.1), st.2.1, true)
    else
      (st.1, st.2.1 ++ [(field, some cellValue)], st.2.2)) (acc.1, ([] : Load), false)
  let load : Load :=
    match map.lookup "driverPhone" with
    | some c => st.2.1 ++ [("driverPhone", (if p.2.getD c "" = "" then none else some (p.2.getD c "")))]
    | none => st.2.1
  if st.2.2 then (st.1, acc.2) else (st.1, acc.2 ++ [load])

/-- `load.loadId` as the duplicate scan reads it. -/
def loadIdOf (l : Load) : Option String :=
  (l.lookup "loadId").join

/-- One step of the duplicate-`loadId` scan over the built loads
(src/src/Code.gs lines 688-705): on a repeat, add a `DUPLICATE_ID` issue
whose `rows` carries both the first and the current load positions,
shifted by 2. -/
def dupStep (acc : List (String × Issue) × List (Option String × Nat))
    (p : Nat × Load) : List (String × Issue) × List (Option String × Nat) :=
  match acc.2.lookup (loadIdOf p.2) with
  | some firstIndex => (addIssue acc.1 (mkDuplicateId (loadIdOf p.2) firstIndex p.1), acc.2)
  | none => (acc.1, acc.2 ++ [(loadIdOf p.2, p.1)])

/-- The duplicate-`loadId` phase over the whole loads array. -/
def dupPhase (m : List (String × Issue)) (loads : List Load) : List (String × Issue) :=
  (loads.enum.foldl dupStep (m, [])).1

/-- The date-format phase (src/src/Code.gs lines 707-768). -/
def datePhase (m : List (String × Issue)) (map : List (String × Nat))
    (rows : List (List String)) : List (String × Issue) :=
  ["fromAppointmentDateTimeUTC", "toAppointmentDateTimeUTC"].foldl (fun m field =>
    match map.lookup field with
    | none => m
    | some c =>
      rows.enum.foldl (fun m p =>
        let cellValue := (p.2).getD c ""
        if cellValue = "" then m
        else
          match jsParseDate cellValue with
          | none => addIssue m (mkBadDateFormat field c p.1)
          | some _ =>
            if isIsoShaped cellValue then m
            else addIssue m (mkNonIsoOutput field c p.1)) m) m

/-- `analyzeSheet` (src/src/Code.gs lines 594-777), as a pure function of
the sheet's `getValues()` table (header row first). -/
def analyzeSheet (data : List (List String)) : AnalysisResult :=
  if data.length < 2 then noDataResult
  else
    let headers := data.headD []
    let rows := data.tail
    let map := (mapHeaders headers).1
    let missingHeaders := REQUIRED_FIELDS.filter (fun f => (map.lookup f).isNone)
    if missingHeaders.length > 0 then
      { ok := false, issues := [mkMissingColumn missingHeaders], loads := some []
        mapping := map, analyzedRows := rows.length }
    else
      let m1 := statusPhase [] rows (map.lookup "status")
      let rl := rows.enum.foldl (rowStep map) (m1, [])
      let m3 := dupPhase rl.1 rl.2
      let m4 := datePhase m3 map rows
      let finalIssues := m4.map Prod.snd
      if finalIssues.length > 0 then
        { ok := false, issues := finalIssues, loads := some []
          mapping := map, analyzedRows := rows.length }
      else
        { ok := true, issues := [], loads := some rl.2
          mapping := map, analyzedRows := rows.length }

end Code2

/-- C2: the claim says `ok` is true iff no issue has severity `error`, and
warn-only runs keep `ok` true with loads populated.  `Code.gs analyzeSheet`
refutes it: a table whose only issue is the warn-severity
`INCONSISTENT_STATUS` comes back with `ok:false` and an emptied `loads`. -/
theorem c2_ok_warn_counterexample :
    (Code2.analyzeSheet
      [["loadId","fromAddress","pu time","toAddress","del time","status","driverName","unitNumber","broker"],
       ["TL1","A","2025-09-10T14:00:00Z","B","2025-09-11T16:00:00Z","a","D","U","Br"],
       ["TL2","A","2025-09-10T14:00:00Z","B","2025-09-11T16:00:00Z","b","D","U","Br"]]).ok = false ∧
    (Code2.analyzeSheet
      [["loadId","fromAddress","pu time","toAddress","del time","status","driverName","unitNumber","broker"],
       ["TL1","A","2025-09-10T14:00:00Z","B","2025-09-11T16:00:00Z","a","D","U","Br"],
       ["TL2","A","2025-09-10T14:00:00Z","B","2025-09-11T16:00:00Z","b","D","U","Br"]]).issues.all
        (fun i => !i.severity.isError) = true ∧
    (Code2.analyzeSheet
      [["loadId","fromAddress","pu time","toAddress","del time","status","driverName","unitNumber","broker"],
       ["TL1","A","2025-09-10T14:00:00Z","B","2025-09-11T16:00:00Z","a","D","U","Br"],
       ["TL2","A","2025-09-10T14:00:00Z","B","2025-09-11T16:00:00Z","b","D","U","Br"]]).issues ≠ [] ∧
    (Code2.analyzeSheet
      [["loadId","fromAddress","pu time","toAddress","del time","status","driverName","unitNumber","broker"],
       ["TL1","A","2025-09-10T14:00:00Z","B","2025-09-11T16:00:00Z","a","D","U","Br"],
       ["TL2","A","2025-09-10T14:00:00Z","B","2025-09-11T16:00:00Z","b","D","U","Br"]]).loads = some [] := by
  refine ⟨by decide, by decide, by decide, by decide⟩

/-- C3: the claim says a row's Load appears in `loads` iff no
error-severity issue references that row.  In `api.gs validateSheet`, a
table whose row 3 has an invalid date (the only error, referencing only
row 3) returns no `loads` key at all, so the clean row 2 contributes no
Load either. -/
theorem c3_per_row_loads_counterexample :
    (Api.validateSheet
      ["Load ID","From","PU Time","To","DEL Time","Status","Driver","Unit","Customer"]
      [["TL1","A st","2025-09-10T14:00:00Z","B st","2025-09-11T16:00:00Z","Pending","John","U1","Acme"],
       ["TL2","A st","Invalid Date","B st","2025-09-11T16:00:00Z","Pending","Jane","U2","Acme"]]).loads = none ∧
    ((Api.validateSheet
      ["Load ID","From","PU Time","To","DEL Time","Status","Driver","Unit","Customer"]
      [["TL1","A st","2025-09-10T14:00:00Z","B st","2025-09-11T16:00:00Z","Pending","John","U1","Acme"],
       ["TL2","A st","Invalid Date","B st","2025-09-11T16:00:00Z","Pending","Jane","U2","Acme"]]).issues.filter
        (fun i => i.severity.isError)).map (fun i => i.rows) = [[3]] := by
  refine ⟨by decide, by decide⟩

/-- C5: the claim says a header equal (case-insensitive, trimmed) to a
required canonical field name is always bound, regardless of the synonym
table.  `api.gs mapHeaders` refutes it: its synonym lists omit the bare
field names, so the header `"loadId"` binds nothing. -/
theorem c5_exact_name_counterexample :
    (Api.mapHeaders ["loadId"]).1.lookup "loadId" = none ∧
    jsTrim (jsToLower "loadId") = "loadid" ∧
    "loadId" ∈ Api.requiredFields ∧
    (Api.mapHeaders ["loadId"]).2.length = 9 := by
  refine ⟨by decide, by decide, by decide, by decide⟩

/-- C6: the claim says the single `DUPLICATE_ID` issue lists both row
numbers.  In `api.gs validateSheet`, two rows sharing `loadId "TL123456"`
produce one `DUPLICATE_ID` issue whose `rows` is `[3]` — the repeat row
only, not the first occurrence (row 2). -/
theorem c6_duplicate_rows_counterexample :
    ((Api.validateSheet
      ["Load ID","From","PU Time","To","DEL Time","Status","Driver","Unit","Customer"]
      [["TL123456","A st","2025-09-10T14:00:00Z","B st","2025-09-11T16:00:00Z","Pending","John","U1","Acme"],
       ["TL123456","C st","2025-09-12T14:00:00Z","D st","2025-09-13T16:00:00Z","Pending","Jane","U2","Beta"]]).issues.filter
        (fun i => i.code == "DUPLICATE_ID")).map (fun i => i.rows) = [[3]] := by
  decide

/-- C7: the claim says each unmapped required field produces its own
`MISSING_COLUMN` issue listing its aliases.  `Code.gs analyzeSheet`
refutes it: with all nine required fields unmapped it emits a single
aggregated `MISSING_COLUMN` issue. -/
theorem c7_missing_column_counterexample :
    (Code2.analyzeSheet [["x"],["y"]]).issues.map (fun i => i.code) = ["MISSING_COLUMN"] ∧
    (Code2.REQUIRED_FIELDS.filter
      (fun f => ((Code2.mapHeaders ["x"]).1.lookup f).isNone)).length = 9 := by
  refine ⟨by decide, by decide⟩

/-- C9: the claim says every non-empty status outside the allow-list
yields a warn issue.  `Code.gs analyzeSheet` refutes it: a single row
whose status is `"weird"` (outside the allow-list) produces no status
issue at all — the inconsistency warning requires two distinct values. -/
theorem c9_status_counterexample :
    (Code2.analyzeSheet
      [["loadId","fromAddress","pu time","toAddress","del time","status","driverName","unitNumber","broker"],
       ["TL1","A","2025-09-10T14:00:00Z","B","2025-09-11T16:00:00Z","weird","D","U","Br"]]).issues = [] ∧
    (Code2.analyzeSheet
      [["loadId","fromAddress","pu time","toAddress","del time","status","driverName","unitNumber","broker"],
       ["TL1","A","2025-09-10T14:00:00Z","B","2025-09-11T16:00:00Z","weird","D","U","Br"]]).ok = true ∧
    ("weird" ∈ Api.allowedStatuses → False) := by
  refine ⟨by decide, by decide, by decide⟩

/-- C8: the claim says an internal exception synthesizes an
`INTERNAL_ERROR` issue.  The `handleChatMessage` catch block instead
synthesizes code `"ERROR"`. -/
theorem c8_internal_error_counterexample :
    (Code1.handleChatMessage (Except.error "boom")).issues.map (fun i => i.code) = ["ERROR"] ∧
    ("ERROR" : String) ≠ "INTERNAL_ERROR" := by
  refine ⟨rfl, by decide⟩

/-- C8 (amended): nothing is thrown back to the caller: a sheet with
fewer than two rows yields `ok:false` with the single synthesized
`NO_DATA` error issue, and a thrown internal error is caught and yields
`ok:false` with a single synthesized error issue whose code is `"ERROR"`
(carrying the thrown message), not `INTERNAL_ERROR`. -/
theorem c8_no_throw_amended :
    (∀ (data : List (List String)) (ai aiLoads : Code1.Envelope) (rl : Bool),
        data.length < 2 →
          Code1.analyzeActiveSheet data ai aiLoads rl = Code1.noDataEnvelope ∧
          Code1.noDataEnvelope.ok = false ∧
          Code1.noDataEnvelope.issues.map (fun i => i.code) = ["NO_DATA"] ∧
          Code1.noDataEnvelope.issues.length = 1) ∧
    (∀ msg : String,
        Code1.handleChatMessage (Except.error msg) = Code1.errorEnvelope msg ∧
        (Code1.errorEnvelope msg).ok = false ∧
        (Code1.errorEnvelope msg).issues.map (fun i => i.code) = ["ERROR"] ∧
        (Code1.errorEnvelope msg).issues.length = 1) := by
  constructor
  · intro data ai aiLoads rl h
    refine ⟨?_, rfl, rfl, rfl⟩
    unfold Code1.analyzeActiveSheet
    rw [if_pos h]
  · intro msg
    exact ⟨rfl, rfl, rfl, rfl⟩

theorem c8_no_throw_witness :
    Code1.analyzeActiveSheet [] Code1.noDataEnvelope Code1.noDataEnvelope true =
      Code1.noDataEnvelope :=
  (c8_no_throw_amended.1 [] Code1.noDataEnvelope Code1.noDataEnvelope true (by decide)).1

/-- C10: emptiness detection is trim-based: any cell whose string form
trims to `""` (including whitespace-only strings) is treated as absent by
`isEmptyCell`, and `analyzeSheet` flags a required field holding such a
value exactly as if the cell were the empty string. -/
theorem c10_whitespace_empty :
    (∀ s : String, jsTrim s = "" → Code1.isEmptyCell (some s) = true) ∧
    Code1.isEmptyCell none = true ∧
    Code2.analyzeSheet
      [["loadId","fromAddress","pu time","toAddress","del time","status","driverName","unitNumber","broker"],
       ["TL1","   ","2025-09-10T14:00:00Z","B","2025-09-11T16:00:00Z","Pending","D","U","Br"]] =
    Code2.analyzeSheet
      [["loadId","fromAddress","pu time","toAddress","del time","status","driverName","unitNumber","broker"],
       ["TL1","","2025-09-10T14:00:00Z","B","2025-09-11T16:00:00Z","Pending","D","U","Br"]] ∧
    (Code2.analyzeSheet
      [["loadId","fromAddress","pu time","toAddress","del time","status","driverName","unitNumber","broker"],
       ["TL1","   ","2025-09-10T14:00:00Z","B","2025-09-11T16:00:00Z","Pending","D","U","Br"]]).issues.map
        (fun i => i.code) = ["EMPTY_REQUIRED_CELL"] := by
  refine ⟨?_, rfl, by decide, by decide⟩
  intro s h
  simp [Code1.isEmptyCell, h]

theorem c10_whitespace_empty_witness :
    Code1.isEmptyCell (some "   ") = true :=
  c10_whitespace_empty.1 "   " (by decide)

/-- Helper: `validateSheet`'s `ok` flag equals the emptiness test of its
own error-filtered issue list, in both return branches. -/
theorem Api.validateSheet_ok_char (hr : List String) (data : List (List String)) :
    (Api.validateSheet hr data).ok =
      (((Api.validateSheet hr data).issues.filter (fun i => i.severity.isError)).length == 0) := by
  simp only [Api.validateSheet]
  split
  next h =>
    simp only
    rcases List.any_eq_true.mp h with ⟨i, hi, hp⟩
    have hmem : i ∈ (Api.mapHeaders hr).2.filter (fun i => i.severity.isError) :=
      List.mem_filter.mpr ⟨hi, hp⟩
    have hne : ((Api.mapHeaders hr).2.filter (fun i => i.severity.isError)).length ≠ 0 := by
      intro h0
      rw [List.length_eq_zero] at h0
      rw [h0] at hmem
      exact absurd hmem (List.not_mem_nil i)
    exact (beq_eq_false_iff_ne.mpr hne).symm
  next => rfl

/-- Helper: `validateSheet` carries a `loads` key exactly when `ok`. -/
theorem Api.validateSheet_loads_char (hr : List String) (data : List (List String)) :
    (Api.validateSheet hr data).loads.isSome = (Api.validateSheet hr data).ok := by
  simp only [Api.validateSheet]
  split
  next => rfl
  next =>
    simp only
    split
    next h => simp [h]
    next h => simp_all

/-- Helper: `analyzeSheet`'s `ok` flag is the emptiness test of its whole
issue list (not of its error-severity issues only). -/
theorem Code2.analyzeSheet_ok_char (data : List (List String)) :
    (Code2.analyzeSheet data).ok = ((Code2.analyzeSheet data).issues.length == 0) := by
  simp only [Code2.analyzeSheet]
  split
  next => rfl
  next =>
    split
    next => rfl
    next =>
      split
      next h =>
        exact (beq_eq_false_iff_ne.mpr (Nat.pos_iff_ne_zero.mp h)).symm
      next => rfl

/-- C2 (amended): in `api.gs validateSheet` the invariant holds as
claimed: `ok` is true iff no issue has severity `error`, and `loads` is
present exactly when `ok` (so a warn-only run has `ok:true` with `loads`
populated).  In `Code.gs analyzeSheet`, however, `ok` is true iff the
issue list is empty, so a warn-only run comes back `ok:false`. -/
theorem c2_ok_invariant_amended :
    (∀ (hr : List String) (data : List (List String)),
        (Api.validateSheet hr data).ok =
          (((Api.validateSheet hr data).issues.filter (fun i => i.severity.isError)).length == 0) ∧
        (Api.validateSheet hr data).loads.isSome = (Api.validateSheet hr data).ok) ∧
    (∀ data : List (List String),
        (Code2.analyzeSheet data).ok = ((Code2.analyzeSheet data).issues.length == 0)) :=
  ⟨fun hr data => ⟨Api.validateSheet_ok_char hr data, Api.validateSheet_loads_char hr data⟩,
   fun data => Code2.analyzeSheet_ok_char data⟩

/-- Helper: each processed row appends exactly one load. -/
theorem Api.fold_loads_length (hr : List String) (m : List (String × String)) :
    ∀ (l : List (Nat × List String)) (st : Api.RowState),
      ((l.foldl (Api.processRow hr m) st).loads).length = st.loads.length + l.length := by
  intro l
  induction l with
  | nil => intro st; simp
  | cons p rest ih =>
    intro st
    simp only [List.foldl_cons]
    rw [ih]
    simp [Api.processRow]
    omega

/-- Helper: when `validateSheet` returns a `loads` array it holds one
Load per data row. -/
theorem Api.validateSheet_loads_length (hr : List String) (data : List (List String))
    (ls : List Api.Load) (h : (Api.validateSheet hr data).loads = some ls) :
    ls.length = data.length := by
  simp only [Api.validateSheet] at h
  split at h
  next => simp at h
  next =>
    split at h
    next =>
      cases h
      rw [Api.fold_loads_length]
      simp
    next => simp at h

/-- C3 (amended): loads are all-or-nothing, not per-row.  In
`api.gs validateSheet` any error-severity issue suppresses the whole
`loads` key, and a returned `loads` array always holds one Load per
analyzed data row (clean rows contribute nothing when any other row has
an error).  In `Code.gs analyzeSheet` any issue at all (warnings
included) empties `loads`. -/
theorem c3_loads_all_or_nothing_amended :
    (∀ (hr : List String) (data : List (List String)),
        ((Api.validateSheet hr data).ok = false → (Api.validateSheet hr data).loads = none) ∧
        (∀ ls, (Api.validateSheet hr data).loads = some ls →
            (Api.validateSheet hr data).ok = true ∧ ls.length = data.length)) ∧
    (∀ data : List (List String), 2 ≤ data.length →
        (Code2.analyzeSheet data).issues ≠ [] → (Code2.analyzeSheet data).loads = some []) := by
  constructor
  · intro hr data
    constructor
    · intro h
      have hl := Api.validateSheet_loads_char hr data
      rw [h] at hl
      cases hls : (Api.validateSheet hr data).loads with
      | none => rfl
      | some ls => rw [hls] at hl; simp at hl
    · intro ls hls
      have hl := Api.validateSheet_loads_char hr data
      rw [hls] at hl
      simp at hl
      exact ⟨hl, Api.validateSheet_loads_length hr data ls hls⟩
  · intro data h2 hne
    simp only [Code2.analyzeSheet] at hne ⊢
    split at hne
    next h => omega
    next h =>
      rw [if_neg h]
      split at hne
      next hm => rw [if_pos hm]
      next hm =>
        rw [if_neg hm]
        split at hne
        next hf => rw [if_pos hf]
        next hf => simp at hne

theorem c3_loads_all_or_nothing_witness :
    (Code2.analyzeSheet [["x"], ["y"]]).loads = some [] :=
  c3_loads_all_or_nothing_amended.2 [["x"], ["y"]] (by decide) (by decide)

/-- Helper: a `filterMap` of an if-then-some is a `filter` then `map`. -/
theorem filterMap_ite_map_filter {α β : Type} (p : α → Prop) [DecidablePred p] (g : α → β)
    (l : List α) :
    (l.filterMap fun x => if p x then some (g x) else none) =
      (l.filter fun x => decide (p x)).map g := by
  induction l with
  | nil => rfl
  | cons x xs ih => by_cases h : p x <;> simp [h, ih]

/-- C7 (amended): in `api.gs mapHeaders` the claim holds: the issue list
is exactly one `MISSING_COLUMN` error per unmapped required field, each
naming the field and listing its aliases — so unmapped `driverPhone` and
unmatched extra headers contribute nothing.  `Code.gs analyzeSheet`
instead aggregates all missing required fields into one single
`MISSING_COLUMN` issue whose suggestion names the fields (not their
aliases). -/
theorem c7_missing_column_amended :
    (∀ headers : List String,
        (Api.mapHeaders headers).2 =
          (Api.requiredFields.filter
            (fun f => decide ((((Api.mapHeaders headers).1.lookup f).getD "") = ""))).map
            Api.missingColumnIssue) ∧
    (∀ data : List (List String), 2 ≤ data.length →
        (Code2.REQUIRED_FIELDS.filter
          (fun f => ((Code2.mapHeaders (data.headD [])).1.lookup f).isNone)) ≠ [] →
        (Code2.analyzeSheet data).issues =
          [Code2.mkMissingColumn (Code2.REQUIRED_FIELDS.filter
            (fun f => ((Code2.mapHeaders (data.headD [])).1.lookup f).isNone))]) := by
  constructor
  · intro headers
    simp only [Api.mapHeaders]
    exact filterMap_ite_map_filter _ _ _
  · intro data h2 hne
    simp only [Code2.analyzeSheet]
    rw [if_neg (by omega)]
    rw [if_pos (List.length_pos.mpr hne)]

theorem c7_missing_column_witness :
    (Code2.analyzeSheet [["x"], ["y"]]).issues =
      [Code2.mkMissingColumn (Code2.REQUIRED_FIELDS.filter
        (fun f => ((Code2.mapHeaders (([["x"], ["y"]] : List (List String)).headD [])).1.lookup f).isNone))] :=
  c7_missing_column_amended.2 [["x"], ["y"]] (by decide) (by decide)

/-- Helper: a binding, when produced, is keyed by its own field. -/
theorem Code2.bindFor_fst (lows : List String) (fs : String × List String)
    (pr : String × Nat) (h : Code2.bindFor lows fs = some pr) : pr.1 = fs.1 := by
  unfold Code2.bindFor at h
  cases hs : Code2.scanSyns lows fs.2 with
  | none => rw [hs] at h; simp at h
  | some idx => rw [hs] at h; cases h; rfl

/-- Helper: a field absent from the synonym table keys is absent from the
built mapping. -/
theorem Code2.lookup_bindFor_not_mem (lows : List String) :
    ∀ (l : List (String × List String)) (f : String), f ∉ l.map Prod.fst →
      ((l.filterMap (Code2.bindFor lows)).lookup f) = none := by
  intro l
  induction l with
  | nil => intro f _; rfl
  | cons a rest ih =>
    intro f hf
    simp only [List.map_cons, List.mem_cons, not_or] at hf
    obtain ⟨hfa, hfr⟩ := hf
    simp only [List.filterMap_cons]
    cases hb : Code2.bindFor lows a with
    | none => exact ih f hfr
    | some pr =>
      obtain ⟨k, v⟩ := pr
      have hkk : k = a.1 := Code2.bindFor_fst lows (a) (k, v) hb
      have hbe : (f == k) = false :=
        beq_eq_false_iff_ne.mpr (fun hc => hfa (hc.trans hkk))
      simp only [List.lookup]
      rw [hbe]
      exact ih f hfr

/-- Helper: looking up a synonym-table field in the built mapping runs the
synonym scan for that field's alias list. -/
theorem Code2.lookup_bindFor_mem (lows : List String) :
    ∀ (l : List (String × List String)) (f : String) (syns : List String),
      (l.map Prod.fst).Nodup → (f, syns) ∈ l →
      ((l.filterMap (Code2.bindFor lows)).lookup f) = Code2.scanSyns lows syns := by
  intro l
  induction l with
  | nil => intro f syns _ hmem; exact absurd hmem (List.not_mem_nil _)
  | cons a rest ih =>
    intro f syns hnd hmem
    simp only [List.map_cons, List.nodup_cons] at hnd
    obtain ⟨hna, hndr⟩ := hnd
    rcases List.mem_cons.mp hmem with heq | hmem'
    · cases heq.symm
      simp only [List.filterMap_cons]
      cases hs : Code2.scanSyns lows syns with
      | none =>
        have hb : Code2.bindFor lows (f, syns) = none := by
          unfold Code2.bindFor; rw [hs]
        rw [hb]
        exact Code2.lookup_bindFor_not_mem lows rest f hna
      | some idx =>
        have hb : Code2.bindFor lows (f, syns) = some (f, idx) := by
          unfold Code2.bindFor; rw [hs]
        rw [hb]
        simp [List.lookup]
    · have hfk : f ∈ rest.map Prod.fst := List.mem_map.mpr ⟨(f, syns), hmem', rfl⟩
      have hne : a.1 ≠ f := fun hcontra => hna (hcontra ▸ hfk)
      simp only [List.filterMap_cons]
      cases hb : Code2.bindFor lows a with
      | none => exact ih f syns hndr hmem'
      | some pr =>
        obtain ⟨k, v⟩ := pr
        have hkk : k = a.1 := Code2.bindFor_fst lows (a) (k, v) hb
        have hbe : (f == k) = false :=
          beq_eq_false_iff_ne.mpr (fun hc => hne (hc.trans hkk).symm)
        simp only [List.lookup]
        rw [hbe]
        exact ih f syns hndr hmem'

/-- C5 (amended): exact-name binding holds only because (and where) the
synonym table lists the field name as an alias.  In `Code.gs mapHeaders`
every required field's first alias is the field name itself, so any
header row containing the field name (case-insensitively, untrimmed)
binds that field to the first such header's column.  In
`api.gs mapHeaders` the synonym lists omit the bare field names, so a
header literally named `loadId` binds nothing. -/
theorem c5_exact_name_amended :
    (∀ (headers : List String) (f : String) (j : Nat), f ∈ Code2.REQUIRED_FIELDS →
        jsIndexOf (headers.map jsToLower) (jsToLower f) = some j →
        ((Code2.mapHeaders headers).1.lookup f) = some j) ∧
    (Api.mapHeaders ["loadId"]).1.lookup "loadId" = none := by
  constructor
  · intro headers f j hf hj
    have hmap : ∀ syns, (f, syns) ∈ Code2.HEADER_MAPPINGS →
        ((Code2.mapHeaders headers).1.lookup f) =
          Code2.scanSyns (headers.map jsToLower) syns := by
      intro syns hmem
      simp only [Code2.mapHeaders]
      exact Code2.lookup_bindFor_mem _ _ f syns (by decide) hmem
    simp only [Code2.REQUIRED_FIELDS] at hf
    fin_cases hf
    · rw [hmap ["loadId", "load id", "ref", "vrid", "reference", "ref #"] (by decide)]
      simp only [Code2.scanSyns]
      rw [hj]
    · rw [hmap ["fromAddress", "from", "pu", "pickup", "origin", "pickup address", "pickup location"] (by decide)]
      simp only [Code2.scanSyns]
      rw [hj]
    · rw [hmap ["fromAppointmentDateTimeUTC", "pu time", "pickup appt", "pickup date/time"] (by decide)]
      simp only [Code2.scanSyns]
      rw [hj]
    · rw [hmap ["toAddress", "to", "drop", "delivery", "destination", "delivery address", "delivery location"] (by decide)]
      simp only [Code2.scanSyns]
      rw [hj]
    · rw [hmap ["toAppointmentDateTimeUTC", "del time", "delivery appt", "delivery date/time"] (by decide)]
      simp only [Code2.scanSyns]
      rw [hj]
    · rw [hmap ["status", "load status", "stage", "load status"] (by decide)]
      simp only [Code2.scanSyns]
      rw [hj]
    · rw [hmap ["driverName", "driver", "driver name", "driver/carrier"] (by decide)]
      simp only [Code2.scanSyns]
      rw [hj]
    · rw [hmap ["unitNumber", "unit", "truck", "truck #", "tractor", "unit number"] (by decide)]
      simp only [Code2.scanSyns]
      rw [hj]
    · rw [hmap ["broker", "customer", "shipper"] (by decide)]
      simp only [Code2.scanSyns]
      rw [hj]
  · decide

theorem c5_exact_name_witness :
    ((Code2.mapHeaders ["Customer", "loadId"]).1.lookup "loadId") = some 1 :=
  c5_exact_name_amended.1 ["Customer", "loadId"] "loadId" 1 (by decide) (by decide)

/-- The issues pushed by the row loop, row by row, threading the
`loadIds` / `statusValues` sets exactly as `validateSheet` does. -/
def Api.issuesTrace (hr : List String) (m : List (String × String)) :
    List String → List String → List (Nat × List String) → List Api.Issue
  | _, _, [] => []
  | ids, sv, p :: rest =>
    Api.stepIssues hr m ids sv p ++
      Api.issuesTrace hr m (Api.stepIds hr m ids p) (Api.stepStatusVals hr m sv p) rest

/-- Helper: the folded row loop's issues are the initial issues followed
by the row-by-row trace. -/
theorem Api.fold_issues (hr : List String) (m : List (String × String)) :
    ∀ (l : List (Nat × List String)) (st : Api.RowState),
      ((l.foldl (Api.processRow hr m) st).issues) =
        st.issues ++ Api.issuesTrace hr m st.loadIds st.statusValues l := by
  intro l
  induction l with
  | nil => intro st; simp [Api.issuesTrace]
  | cons p rest ih =>
    intro st
    simp only [List.foldl_cons]
    rw [ih]
    simp [Api.processRow, Api.issuesTrace]

/-- The status issue contributed by one row (empty when the status cell
is absent or in the allow-list). -/
def Api.statusIssueOf (hr : List String) (m : List (String × String))
    (p : Nat × List String) : List Api.Issue :=
  match (Api.stepLoad hr m p).read "status" with
  | none => []
  | some v =>
    if v ∈ Api.allowedStatuses then []
    else [Api.mkInvalidStatus v (p.1 + 2) (m.lookup "status")]

theorem Api.statusCheck_fst (m : List (String × String)) (n : Nat) (load : Api.Load)
    (sv : List String) :
    (Api.statusCheck m n load sv).1 =
      (match load.read "status" with
       | none => []
       | some v =>
         if v ∈ Api.allowedStatuses then []
         else [Api.mkInvalidStatus v n (m.lookup "status")]) := by
  unfold Api.statusCheck
  cases hv : load.read "status" with
  | none => rfl
  | some v => by_cases h : v ∈ Api.allowedStatuses <;> simp [h]

/-- Helper: a filter by issue code drops a list whose codes all differ. -/
theorem filter_key_eq_nil {α : Type} (g : α → String) (c : String) (l : List α)
    (h : ∀ i ∈ l, g i ≠ c) : l.filter (fun i => g i == c) = [] := by
  refine List.filter_eq_nil_iff.mpr ?_
  intro a ha
  simpa using h a ha

theorem Api.idCheck_filter_ne (m : List (String × String)) (load : Api.Load) (n : Nat)
    (ids : List String) (c : String) (h1 : ("MISSING_ID" : String) ≠ c)
    (h2 : ("DUPLICATE_ID" : String) ≠ c) :
    ((Api.idCheck m load n ids).1).filter (fun i => i.code == c) = [] := by
  unfold Api.idCheck
  split
  next =>
    refine filter_key_eq_nil _ _ _ ?_
    intro i hi
    rw [List.mem_singleton] at hi
    subst hi
    exact h1
  next v =>
    split
    next =>
      refine filter_key_eq_nil _ _ _ ?_
      intro i hi
      rw [List.mem_singleton] at hi
      subst hi
      exact h2
    next => rfl

theorem Api.dateCheck_filter_ne (m : List (String × String)) (n : Nat) (load : Api.Load)
    (f : String) (c : String) (h1 : ("MISSING_DATE" : String) ≠ c)
    (h2 : ("INVALID_DATE" : String) ≠ c) :
    ((Api.dateCheck m n load f).1).filter (fun i => i.code == c) = [] := by
  unfold Api.dateCheck
  split
  next =>
    refine filter_key_eq_nil _ _ _ ?_
    intro i hi
    rw [List.mem_singleton] at hi
    subst hi
    exact h1
  next s heq =>
    cases hd : jsParseDate s with
    | none =>
      refine filter_key_eq_nil _ _ _ ?_
      intro i hi
      have hi2 : i ∈ [Api.mkInvalidDate s n (m.lookup f)] := hi
      rw [List.mem_singleton] at hi2
      subst hi2
      exact h2
    | some d => rfl

/-- Helper: filtering one row's issues to `INVALID_STATUS` leaves exactly
the row's status issue. -/
theorem Api.filter_status_step (hr : List String) (m : List (String × String))
    (ids sv : List String) (p : Nat × List String) :
    (Api.stepIssues hr m ids sv p).filter (fun i => i.code == "INVALID_STATUS") =
      Api.statusIssueOf hr m p := by
  unfold Api.stepIssues Api.statusIssueOf
  rw [List.filter_append, List.filter_append, List.filter_append]
  rw [Api.idCheck_filter_ne _ _ _ _ _ (by decide) (by decide)]
  rw [Api.dateCheck_filter_ne _ _ _ _ _ (by decide) (by decide)]
  rw [Api.dateCheck_filter_ne _ _ _ _ _ (by decide) (by decide)]
  rw [Api.statusCheck_fst]
  cases hv : (Api.stepLoad hr m p).read "status" with
  | none => simp
  | some v =>
    by_cases h : v ∈ Api.allowedStatuses
    · simp [h]
    · have hc : ((Api.mkInvalidStatus v (p.1 + 2) (m.lookup "status")).code ==
          "INVALID_STATUS") = true := rfl
      simp [h, List.filter_cons, hc]

/-- Helper: the trace's `INVALID_STATUS` issues are one per offending
row, independent of the threaded sets. -/
theorem Api.filter_status_trace (hr : List String) (m : List (String × String)) :
    ∀ (l : List (Nat × List String)) (ids sv : List String),
      (Api.issuesTrace hr m ids sv l).filter (fun i => i.code == "INVALID_STATUS") =
        l.flatMap (Api.statusIssueOf hr m) := by
  intro l
  induction l with
  | nil => intro ids sv; rfl
  | cons p rest ih =>
    intro ids sv
    simp only [Api.issuesTrace, List.filter_append, List.flatMap_cons]
    rw [Api.filter_status_step, ih]

/-- Helper: every issue `mapHeaders` produces is error-severity. -/
theorem Api.mapHeaders_issues_error (headers : List String) :
    ∀ i ∈ (Api.mapHeaders headers).2, i.severity = .error := by
  intro i hi
  simp only [Api.mapHeaders] at hi
  rcases List.mem_filterMap.mp hi with ⟨f, _, hf⟩
  split at hf
  next => cases hf; rfl
  next => simp at hf

/-- Helper: a header row that raises no error-severity mapping issue
raises no mapping issue at all. -/
theorem Api.mapHeaders_no_error (headers : List String)
    (h : ((Api.mapHeaders headers).2.any (fun i => i.severity.isError)) = false) :
    (Api.mapHeaders headers).2 = [] := by
  cases hl : (Api.mapHeaders headers).2 with
  | nil => rfl
  | cons i rest =>
    have hie : i.severity = .error :=
      Api.mapHeaders_issues_error headers i (by rw [hl]; exact List.mem_cons_self _ _)
    have htrue : (Api.mapHeaders headers).2.any (fun i => i.severity.isError) = true :=
      List.any_eq_true.mpr ⟨i, by rw [hl]; exact List.mem_cons_self _ _, by rw [hie]; rfl⟩
    rw [h] at htrue
    exact absurd htrue (by simp)

/-- C9 (amended): in `api.gs validateSheet` the claim holds: the
`INVALID_STATUS` issues are exactly one warn-severity issue per row whose
non-empty status value lies outside the fixed allow-list (allow-listed or
absent statuses produce none), and a run whose issues are all warnings
still has `ok:true`.  In `Code.gs analyzeSheet` there is no allow-list:
a single `INCONSISTENT_STATUS` warning appears only when at least two
distinct non-empty trimmed status values occur, and (per its `ok`
policy) any issue, that warning included, forces `ok:false`. -/
theorem c9_status_amended :
    (∀ (hr : List String) (data : List (List String)),
        ((Api.mapHeaders hr).2.any (fun i => i.severity.isError)) = false →
        ((Api.validateSheet hr data).issues.filter (fun i => i.code == "INVALID_STATUS")) =
          data.enum.flatMap (Api.statusIssueOf hr (Api.mapHeaders hr).1)) ∧
    (∀ (v : String) (n : Nat) (col : Option String),
        (Api.mkInvalidStatus v n col).severity = Severity.warn) ∧
    (∀ (hr : List String) (data : List (List String)),
        ((Api.validateSheet hr data).issues.any (fun i => i.severity.isError)) = false →
        (Api.validateSheet hr data).ok = true) ∧
    (∀ (m : List (String × Code2.Issue)) (rows : List (List String)) (c : Option Nat),
        (Code2.statusValuesOf rows c).length ≤ 1 → Code2.statusPhase m rows c = m) := by
  refine ⟨?_, fun v n col => rfl, ?_, ?_⟩
  · intro hr data h
    simp only [Api.validateSheet]
    rw [if_neg (by rw [h]; simp)]
    simp only
    rw [Api.fold_issues, List.filter_append, Api.mapHeaders_no_error hr h]
    simp only [List.filter_nil, List.nil_append]
    exact Api.filter_status_trace hr _ data.enum [] []
  · intro hr data h
    rw [Api.validateSheet_ok_char]
    have hnil : (Api.validateSheet hr data).issues.filter (fun i => i.severity.isError) = [] := by
      refine List.filter_eq_nil_iff.mpr ?_
      intro a ha
      have := List.any_eq_false.mp h a ha
      simpa using this
    rw [hnil]
    rfl
  · intro m rows c h
    unfold Code2.statusPhase
    rw [if_neg (by omega)]

theorem c9_status_amended_witness :
    ((Api.validateSheet
      ["Load ID","From","PU Time","To","DEL Time","Status","Driver","Unit","Customer"]
      [["TL1","A st","2025-09-10T14:00:00Z","B st","2025-09-11T16:00:00Z","weird","John","U1","Acme"]]).issues.filter
        (fun i => i.code == "INVALID_STATUS")) =
      ([["TL1","A st","2025-09-10T14:00:00Z","B st","2025-09-11T16:00:00Z","weird","John","U1","Acme"]] : List (List String)).enum.flatMap
        (Api.statusIssueOf ["Load ID","From","PU Time","To","DEL Time","Status","Driver","Unit","Customer"]
          (Api.mapHeaders ["Load ID","From","PU Time","To","DEL Time","Status","Driver","Unit","Customer"]).1) :=
  c9_status_amended.1
    ["Load ID","From","PU Time","To","DEL Time","Status","Driver","Unit","Customer"]
    [["TL1","A st","2025-09-10T14:00:00Z","B st","2025-09-11T16:00:00Z","weird","John","U1","Acme"]]
    (by decide)

/-- Index of the first occurrence of `a` (length of the list if absent). -/
def firstIdx {α : Type} [DecidableEq α] (a : α) : List α → Nat
  | [] => 0
  | x :: xs => if x = a then 0 else firstIdx a xs + 1

/-- Index of the second occurrence of `a`. -/
def secondIdx {α : Type} [DecidableEq α] (a : α) : List α → Nat
  | [] => 0
  | x :: xs => if x = a then firstIdx a xs + 1 else secondIdx a xs + 1

/-- The `loadId` cell a row contributes, exactly as `validateSheet` reads
it off the assembled load object. -/
def Api.loadIdCell (hr : List String) (m : List (String × String)) (row : List String) :
    Option String :=
  (Api.buildLoad hr m row).read "loadId"

theorem Api.statusCheck_filter_ne (m : List (String × String)) (n : Nat) (load : Api.Load)
    (sv : List String) (c : String) (h : ("INVALID_STATUS" : String) ≠ c) :
    ((Api.statusCheck m n load sv).1).filter (fun i => i.code == c) = [] := by
  rw [Api.statusCheck_fst]
  cases hv : load.read "status" with
  | none => rfl
  | some v =>
    by_cases ha : v ∈ Api.allowedStatuses
    · simp [ha]
    · simp only [ha, if_neg, if_false]
      refine filter_key_eq_nil _ _ _ ?_
      intro i hi
      rw [List.mem_singleton] at hi
      subst hi
      exact h

theorem Api.idCheck_filter_dup (m : List (String × String)) (load : Api.Load) (n : Nat)
    (ids : List String) :
    ((Api.idCheck m load n ids).1).filter (fun i => i.code == "DUPLICATE_ID") =
      (match load.read "loadId" with
       | none => []
       | some v => if v ∈ ids then [Api.mkDuplicateId v n (m.lookup "loadId")] else []) := by
  unfold Api.idCheck
  cases hv : load.read "loadId" with
  | none =>
    refine filter_key_eq_nil _ _ _ ?_
    intro i hi
    have hi2 : i ∈ [Api.mkMissingId n] := hi
    rw [List.mem_singleton] at hi2
    subst hi2
    show ("MISSING_ID" : String) ≠ "DUPLICATE_ID"
    decide
  | some v =>
    by_cases hm : v ∈ ids
    · have hc : ((Api.mkDuplicateId v n (m.lookup "loadId")).code == "DUPLICATE_ID") = true := rfl
      simp [hm, List.filter_cons, hc]
    · simp [hm]

theorem Api.stepIds_char (hr : List String) (m : List (String × String))
    (ids : List String) (p : Nat × List String) :
    Api.stepIds hr m ids p =
      (match Api.loadIdCell hr m p.2 with
       | none => ids
       | some v => if v ∈ ids then ids else ids ++ [v]) := by
  unfold Api.stepIds Api.idCheck Api.loadIdCell
  cases hv : (Api.buildLoad hr m p.2).read "loadId" with
  | none => rfl
  | some v => by_cases hm : v ∈ ids <;> simp [hm]

/-- Helper: filtering one row's issues to `DUPLICATE_ID` leaves the
duplicate issue exactly when the row repeats an already-seen id. -/
theorem Api.filter_dup_step (hr : List String) (m : List (String × String))
    (ids sv : List String) (p : Nat × List String) :
    (Api.stepIssues hr m ids sv p).filter (fun i => i.code == "DUPLICATE_ID") =
      (match Api.loadIdCell hr m p.2 with
       | none => []
       | some v => if v ∈ ids then [Api.mkDuplicateId v (p.1 + 2) (m.lookup "loadId")] else []) := by
  unfold Api.stepIssues
  rw [List.filter_append, List.filter_append, List.filter_append,
      Api.dateCheck_filter_ne _ _ _ _ _ (by decide) (by decide),
      Api.dateCheck_filter_ne _ _ _ _ _ (by decide) (by decide),
      Api.statusCheck_filter_ne _ _ _ _ _ (by decide),
      Api.idCheck_filter_dup]
  simp only [Api.loadIdCell]
  cases (Api.buildLoad hr m p.2).read "loadId" with
  | none => simp
  | some v => by_cases hm : v ∈ ids <;> simp [hm]

/-- The duplicate-id scan over the rows' id cells, threading the seen-ids
set exactly as the row loop does. -/
def Api.dupScan (m : List (String × String)) : List String → Nat → List (Option String) →
    List Api.Issue
  | _, _, [] => []
  | ids, k, c :: rest =>
    match c with
    | some v =>
      if v ∈ ids then
        Api.mkDuplicateId v (k + 2) (m.lookup "loadId") :: Api.dupScan m ids (k + 1) rest
      else Api.dupScan m (ids ++ [v]) (k + 1) rest
    | none => Api.dupScan m ids (k + 1) rest

/-- Helper: the trace's `DUPLICATE_ID` issues are computed by the scan. -/
theorem Api.filter_dup_trace (hr : List String) (m : List (String × String)) :
    ∀ (rows : List (List String)) (k : Nat) (ids sv : List String),
      (Api.issuesTrace hr m ids sv (rows.enumFrom k)).filter (fun i => i.code == "DUPLICATE_ID") =
        Api.dupScan m ids k (rows.map (Api.loadIdCell hr m)) := by
  intro rows
  induction rows with
  | nil => intros; rfl
  | cons r rest ih =>
    intro k ids sv
    simp only [List.enumFrom, Api.issuesTrace, List.filter_append, List.map_cons]
    rw [Api.filter_dup_step, Api.stepIds_char]
    simp only [Api.dupScan]
    cases Api.loadIdCell hr m r with
    | none => simpa using ih (k + 1) ids _
    | some v =>
      by_cases hm : v ∈ ids
      · simp only [hm, if_pos]
        rw [ih]
        simp
      · simp only [hm, if_neg]
        rw [ih]
        simp

/-- Occurrence count, written out for direct unfolding. -/
def occCount {α : Type} [DecidableEq α] (a : α) : List α → Nat
  | [] => 0
  | x :: xs => (if x = a then 1 else 0) + occCount a xs

theorem occCount_cons_self {α : Type} [DecidableEq α] (a : α) (l : List α) :
    occCount a (a :: l) = occCount a l + 1 := by
  rw [occCount, if_pos rfl]
  omega

theorem occCount_cons_ne {α : Type} [DecidableEq α] (x a : α) (l : List α) (h : x ≠ a) :
    occCount a (x :: l) = occCount a l := by
  rw [occCount, if_neg h]
  omega

theorem firstIdx_cons_self {α : Type} [DecidableEq α] (a : α) (l : List α) :
    firstIdx a (a :: l) = 0 := by
  rw [firstIdx, if_pos rfl]

theorem firstIdx_cons_ne {α : Type} [DecidableEq α] (x a : α) (l : List α) (h : x ≠ a) :
    firstIdx a (x :: l) = firstIdx a l + 1 := by
  rw [firstIdx, if_neg h]

theorem secondIdx_cons_self {α : Type} [DecidableEq α] (a : α) (l : List α) :
    secondIdx a (a :: l) = firstIdx a l + 1 := by
  rw [secondIdx, if_pos rfl]

theorem secondIdx_cons_ne {α : Type} [DecidableEq α] (x a : α) (l : List α) (h : x ≠ a) :
    secondIdx a (x :: l) = secondIdx a l + 1 := by
  rw [secondIdx, if_neg h]

/-- Helper: `some` preserves disequality. -/
theorem some_ne_of_ne {α : Type} {a b : α} (h : a ≠ b) : (some a : Option α) ≠ some b :=
  fun hx => h (Option.some.inj hx)

/-- Helper: the scan emits nothing when no seen id reappears and no cell
value repeats. -/
theorem Api.dupScan_nil (m : List (String × String)) :
    ∀ (cs : List (Option String)) (ids : List String) (k : Nat),
      (∀ w ∈ ids, occCount (some w) cs = 0) →
      (∀ w : String, occCount (some w) cs ≤ 1) →
      Api.dupScan m ids k cs = [] := by
  intro cs
  induction cs with
  | nil => intros; rfl
  | cons c rest ih =>
    intro ids k h0 h1
    cases c with
    | none =>
      simp only [Api.dupScan]
      apply ih
      · intro w hw
        have h := h0 w hw
        rwa [occCount_cons_ne _ _ _ (by simp)] at h
      · intro w
        have h := h1 w
        rwa [occCount_cons_ne _ _ _ (by simp)] at h
    | some v =>
      have hv : v ∉ ids := by
        intro hmem
        have h := h0 v hmem
        rw [occCount_cons_self] at h
        omega
      simp only [Api.dupScan, if_neg hv]
      apply ih
      · intro w hw
        rcases List.mem_append.mp hw with hw' | hw'
        · by_cases he : v = w
          · exact absurd (he ▸ hw') hv
          · have h := h0 w hw'
            rwa [occCount_cons_ne _ _ _ (by simp [he])] at h
        · have hwv : w = v := by simpa using hw'
          subst hwv
          have h := h1 w
          rw [occCount_cons_self] at h
          omega
      · intro w
        have h := h1 w
        by_cases he : v = w
        · subst he
          rw [occCount_cons_self] at h
          omega
        · rwa [occCount_cons_ne _ _ _ (by simp [he])] at h

/-- Helper: with `v` already seen and exactly one `v` cell remaining, the
scan emits exactly the one repeat issue, at the cell's position. -/
theorem Api.dupScan_one (m : List (String × String)) :
    ∀ (cs : List (Option String)) (ids : List String) (k : Nat) (v : String),
      v ∈ ids → occCount (some v) cs = 1 →
      (∀ w : String, w ≠ v → occCount (some w) cs ≤ 1) →
      (∀ w ∈ ids, w ≠ v → occCount (some w) cs = 0) →
      Api.dupScan m ids k cs =
        [Api.mkDuplicateId v (k + firstIdx (some v) cs + 2) (m.lookup "loadId")] := by
  intro cs
  induction cs with
  | nil =>
    intro ids k v _ h1 _ _
    rw [occCount] at h1
    omega
  | cons c rest ih =>
    intro ids k v hvin h1 hle h0
    by_cases hc : c = some v
    · subst hc
      simp only [Api.dupScan, if_pos hvin]
      rw [occCount_cons_self] at h1
      have hrest : occCount (some v) rest = 0 := by omega
      have hnil : Api.dupScan m ids (k + 1) rest = [] := by
        apply Api.dupScan_nil
        · intro w hw
          by_cases he : w = v
          · subst he; exact hrest
          · have h := h0 w hw he
            rwa [occCount_cons_ne _ _ _ (some_ne_of_ne (Ne.symm he))] at h
        · intro w
          by_cases he : w = v
          · subst he; omega
          · have h := hle w he
            rwa [occCount_cons_ne _ _ _ (some_ne_of_ne (Ne.symm he))] at h
      rw [hnil, firstIdx_cons_self]
    · cases c with
      | none =>
        simp only [Api.dupScan]
        rw [ih ids (k + 1) v hvin
          (by rwa [occCount_cons_ne _ _ _ (by simp)] at h1)
          (fun w hw => by have h := hle w hw; rwa [occCount_cons_ne _ _ _ (by simp)] at h)
          (fun w hw hwv => by have h := h0 w hw hwv; rwa [occCount_cons_ne _ _ _ (by simp)] at h)]
        rw [firstIdx_cons_ne _ _ _ hc]
        have harith : k + 1 + firstIdx (some v) rest + 2 =
            k + (firstIdx (some v) rest + 1) + 2 := by omega
        rw [harith]
      | some w =>
        have hwv : w ≠ v := fun he => hc (by rw [he])
        by_cases hw : w ∈ ids
        · have h := h0 w hw hwv
          rw [occCount_cons_self] at h
          omega
        · simp only [Api.dupScan, if_neg hw]
          rw [ih (ids ++ [w]) (k + 1) v (List.mem_append.mpr (Or.inl hvin))
            (by rwa [occCount_cons_ne _ _ _ (some_ne_of_ne hwv)] at h1)
            (fun u hu => by
              have h := hle u hu
              by_cases he : u = w
              · subst he
                rw [occCount_cons_self] at h
                omega
              · rwa [occCount_cons_ne _ _ _ (some_ne_of_ne (Ne.symm he))] at h)
            (fun u hu huv => by
              rcases List.mem_append.mp hu with hu' | hu'
              · by_cases he : u = w
                · subst he; exact absurd hu' hw
                · have h := h0 u hu' huv
                  rwa [occCount_cons_ne _ _ _ (some_ne_of_ne (Ne.symm he))] at h
              · have hue : u = w := by simpa using hu'
                subst hue
                have h := hle u huv
                rw [occCount_cons_self] at h
                omega)]
          rw [firstIdx_cons_ne _ _ _ hc]
          have harith : k + 1 + firstIdx (some v) rest + 2 =
              k + (firstIdx (some v) rest + 1) + 2 := by omega
          rw [harith]

/-- Helper: with `v` unseen and exactly two `v` cells, the scan emits
exactly one issue, at the second occurrence. -/
theorem Api.dupScan_two (m : List (String × String)) :
    ∀ (cs : List (Option String)) (ids : List String) (k : Nat) (v : String),
      v ∉ ids → occCount (some v) cs = 2 →
      (∀ w : String, w ≠ v → occCount (some w) cs ≤ 1) →
      (∀ w ∈ ids, w ≠ v → occCount (some w) cs = 0) →
      Api.dupScan m ids k cs =
        [Api.mkDuplicateId v (k + secondIdx (some v) cs + 2) (m.lookup "loadId")] := by
  intro cs
  induction cs with
  | nil =>
    intro ids k v _ h2 _ _
    rw [occCount] at h2
    omega
  | cons c rest ih =>
    intro ids k v hvout h2 hle h0
    by_cases hc : c = some v
    · subst hc
      simp only [Api.dupScan, if_neg hvout]
      rw [occCount_cons_self] at h2
      rw [Api.dupScan_one m rest (ids ++ [v]) (k + 1) v
        (List.mem_append.mpr (Or.inr (List.mem_singleton.mpr rfl)))
        (by omega)
        (fun w hw => by
          have h := hle w hw
          rwa [occCount_cons_ne _ _ _ (some_ne_of_ne (Ne.symm hw))] at h)
        (fun w hw hwv => by
          rcases List.mem_append.mp hw with hw' | hw'
          · have h := h0 w hw' hwv
            rwa [occCount_cons_ne _ _ _ (some_ne_of_ne (Ne.symm hwv))] at h
          · exact absurd (by simpa using hw') hwv)]
      rw [secondIdx_cons_self]
      have harith : k + 1 + firstIdx (some v) rest + 2 =
          k + (firstIdx (some v) rest + 1) + 2 := by omega
      rw [harith]
    · cases c with
      | none =>
        simp only [Api.dupScan]
        rw [ih ids (k + 1) v hvout
          (by rwa [occCount_cons_ne _ _ _ (by simp)] at h2)
          (fun w hw => by have h := hle w hw; rwa [occCount_cons_ne _ _ _ (by simp)] at h)
          (fun w hw hwv => by have h := h0 w hw hwv; rwa [occCount_cons_ne _ _ _ (by simp)] at h)]
        rw [secondIdx_cons_ne _ _ _ hc]
        have harith : k + 1 + secondIdx (some v) rest + 2 =
            k + (secondIdx (some v) rest + 1) + 2 := by omega
        rw [harith]
      | some w =>
        have hwv : w ≠ v := fun he => hc (by rw [he])
        by_cases hw : w ∈ ids
        · have h := h0 w hw hwv
          rw [occCount_cons_self] at h
          omega
        · simp only [Api.dupScan, if_neg hw]
          have hnotin : v ∉ ids ++ [w] := by
            intro hmem
            rcases List.mem_append.mp hmem with hm' | hm'
            · exact hvout hm'
            · have hvw : v = w := by simpa using hm'
              exact hwv hvw.symm
          have hcnt : occCount (some v) rest = 2 := by
            rwa [occCount_cons_ne _ _ _ (some_ne_of_ne hwv)] at h2
          have hle2 : ∀ u : String, u ≠ v → occCount (some u) rest ≤ 1 := by
            intro u hu
            have h := hle u hu
            by_cases he : u = w
            · subst he
              rw [occCount_cons_self] at h
              omega
            · rwa [occCount_cons_ne _ _ _ (some_ne_of_ne (Ne.symm he))] at h
          have h02 : ∀ u ∈ ids ++ [w], u ≠ v → occCount (some u) rest = 0 := by
            intro u hu huv
            rcases List.mem_append.mp hu with hu' | hu'
            · by_cases he : u = w
              · subst he; exact absurd hu' hw
              · have h := h0 u hu' huv
                rwa [occCount_cons_ne _ _ _ (some_ne_of_ne (Ne.symm he))] at h
            · have hue : u = w := by simpa using hu'
              subst hue
              have h := hle u huv
              rw [occCount_cons_self] at h
              omega
          rw [ih (ids ++ [w]) (k + 1) v hnotin hcnt hle2 h02]
          rw [secondIdx_cons_ne _ _ _ hc]
          have harith : k + 1 + secondIdx (some v) rest + 2 =
              k + (secondIdx (some v) rest + 1) + 2 := by omega
          rw [harith]

theorem lookup_append_none {α β : Type} [BEq α] (a : α) :
    ∀ (l1 l2 : List (α × β)), List.lookup a l1 = none →
      List.lookup a (l1 ++ l2) = List.lookup a l2 := by
  intro l1
  induction l1 with
  | nil => intro l2 _; rfl
  | cons p rest ih =>
    intro l2 h
    obtain ⟨k, b⟩ := p
    simp only [List.lookup, List.cons_append] at h ⊢
    cases hk : (a == k) with
    | true => rw [hk] at h; exact absurd h (by simp)
    | false => rw [hk] at h; exact ih l2 h

theorem lookup_append_some {α β : Type} [BEq α] (a : α) (x : β) :
    ∀ (l1 l2 : List (α × β)), List.lookup a l1 = some x →
      List.lookup a (l1 ++ l2) = some x := by
  intro l1
  induction l1 with
  | nil => intro l2 h; simp [List.lookup] at h
  | cons p rest ih =>
    intro l2 h
    obtain ⟨k, b⟩ := p
    simp only [List.lookup, List.cons_append] at h ⊢
    cases hk : (a == k) with
    | true => rw [hk] at h; exact h
    | false => rw [hk] at h; exact ih l2 h

theorem lookup_singleton_self {α β : Type} [BEq α] [LawfulBEq α] (a : α) (b : β) :
    List.lookup a [(a, b)] = some b := by
  simp [List.lookup]

theorem lookup_singleton_ne {α β : Type} [BEq α] [LawfulBEq α] (a k : α) (b : β) (h : a ≠ k) :
    List.lookup a [(k, b)] = none := by
  simp [List.lookup, beq_eq_false_iff_ne.mpr h]

/-- The duplicate-event scan over the loads' id cells, threading the
first-occurrence map exactly as the `loads.forEach` does. -/
def Code2.dupEventsScan (seen : List (Option String × Nat)) (k : Nat) :
    List (Option String) → List Code2.Issue
  | [] => []
  | c :: rest =>
    match List.lookup c seen with
    | some firstIndex =>
      Code2.mkDuplicateId c firstIndex k :: Code2.dupEventsScan seen (k + 1) rest
    | none => Code2.dupEventsScan (seen ++ [(c, k)]) (k + 1) rest

/-- Helper: the duplicate phase folds the scanned events into the issue
map. -/
theorem Code2.dupPhase_scan :
    ∀ (loads : List Code2.Load) (m : List (String × Code2.Issue))
      (seen : List (Option String × Nat)) (k : Nat),
      ((loads.enumFrom k).foldl Code2.dupStep (m, seen)).1 =
        (Code2.dupEventsScan seen k (loads.map Code2.loadIdOf)).foldl Code2.addIssue m := by
  intro loads
  induction loads with
  | nil => intros; rfl
  | cons l rest ih =>
    intro m seen k
    simp only [List.enumFrom, List.foldl_cons, List.map_cons]
    cases hl : List.lookup (Code2.loadIdOf l) seen with
    | some fi =>
      have hstep : Code2.dupStep (m, seen) (k, l) =
          (Code2.addIssue m (Code2.mkDuplicateId (Code2.loadIdOf l) fi k), seen) := by
        simp [Code2.dupStep, hl]
      rw [hstep, ih]
      simp only [Code2.dupEventsScan, hl, List.foldl_cons]
    | none =>
      have hstep : Code2.dupStep (m, seen) (k, l) = (m, seen ++ [(Code2.loadIdOf l, k)]) := by
        simp [Code2.dupStep, hl]
      rw [hstep, ih]
      simp only [Code2.dupEventsScan, hl]

/-- Helper: the event scan emits nothing when no seen id reappears and no
id cell repeats. -/
theorem Code2.dupEventsScan_nil :
    ∀ (cs : List (Option String)) (seen : List (Option String × Nat)) (k : Nat),
      (∀ c : Option String, (List.lookup c seen).isSome = true → occCount c cs = 0) →
      (∀ c : Option String, occCount c cs ≤ 1) →
      Code2.dupEventsScan seen k cs = [] := by
  intro cs
  induction cs with
  | nil => intros; rfl
  | cons c rest ih =>
    intro seen k h0 h1
    cases hl : List.lookup c seen with
    | some fi =>
      have h := h0 c (by rw [hl]; rfl)
      rw [occCount_cons_self] at h
      omega
    | none =>
      simp only [Code2.dupEventsScan, hl]
      apply ih
      · intro d hd
        by_cases he : d = c
        · subst he
          have h := h1 d
          rw [occCount_cons_self] at h
          omega
        · cases hds : List.lookup d seen with
          | some x =>
            have h := h0 d (by rw [hds]; rfl)
            rwa [occCount_cons_ne _ _ _ (Ne.symm he)] at h
          | none =>
            rw [lookup_append_none d seen _ hds, lookup_singleton_ne d c k he] at hd
            simp at hd
      · intro d
        have h := h1 d
        by_cases he : c = d
        · subst he
          rw [occCount_cons_self] at h
          omega
        · rwa [occCount_cons_ne _ _ _ he] at h

/-- Helper: with `cv` first seen at position `f` and exactly one `cv`
cell remaining, the event scan emits the one repeat issue, carrying both
positions. -/
theorem Code2.dupEventsScan_one :
    ∀ (cs : List (Option String)) (seen : List (Option String × Nat)) (k : Nat)
      (cv : Option String) (f : Nat),
      List.lookup cv seen = some f →
      occCount cv cs = 1 →
      (∀ c : Option String, c ≠ cv → occCount c cs ≤ 1) →
      (∀ c : Option String, (List.lookup c seen).isSome = true → c ≠ cv → occCount c cs = 0) →
      Code2.dupEventsScan seen k cs = [Code2.mkDuplicateId cv f (k + firstIdx cv cs)] := by
  intro cs
  induction cs with
  | nil =>
    intro seen k cv f _ h1 _ _
    rw [occCount] at h1
    omega
  | cons c rest ih =>
    intro seen k cv f hlk h1 hle h0
    by_cases hc : c = cv
    · subst hc
      simp only [Code2.dupEventsScan, hlk]
      rw [occCount_cons_self] at h1
      have hnil : Code2.dupEventsScan seen (k + 1) rest = [] := by
        apply Code2.dupEventsScan_nil
        · intro d hd
          by_cases he : d = c
          · subst he; omega
          · have h := h0 d hd he
            rwa [occCount_cons_ne _ _ _ (Ne.symm he)] at h
        · intro d
          by_cases he : d = c
          · subst he; omega
          · have h := hle d he
            rwa [occCount_cons_ne _ _ _ (Ne.symm he)] at h
      rw [hnil, firstIdx_cons_self, Nat.add_zero]
    · cases hl : List.lookup c seen with
      | some fi =>
        have h := h0 c (by rw [hl]; rfl) hc
        rw [occCount_cons_self] at h
        omega
      | none =>
        simp only [Code2.dupEventsScan, hl]
        have hlk2 : List.lookup cv (seen ++ [(c, k)]) = some f :=
          lookup_append_some cv f seen _ hlk
        have h1' : occCount cv rest = 1 := by rwa [occCount_cons_ne _ _ _ hc] at h1
        have hle' : ∀ d : Option String, d ≠ cv → occCount d rest ≤ 1 := by
          intro d hd
          have h := hle d hd
          by_cases he : c = d
          · subst he
            rw [occCount_cons_self] at h
            omega
          · rwa [occCount_cons_ne _ _ _ he] at h
        have h0' : ∀ d : Option String, (List.lookup d (seen ++ [(c, k)])).isSome = true →
            d ≠ cv → occCount d rest = 0 := by
          intro d hd hdv
          by_cases he : d = c
          · subst he
            have h := hle d hdv
            rw [occCount_cons_self] at h
            omega
          · cases hds : List.lookup d seen with
            | some x =>
              have h := h0 d (by rw [hds]; rfl) hdv
              rwa [occCount_cons_ne _ _ _ (Ne.symm he)] at h
            | none =>
              rw [lookup_append_none d seen _ hds, lookup_singleton_ne d c k he] at hd
              simp at hd
        rw [ih (seen ++ [(c, k)]) (k + 1) cv f hlk2 h1' hle' h0']
        rw [firstIdx_cons_ne _ _ _ hc]
        have harith : k + 1 + firstIdx cv rest = k + (firstIdx cv rest + 1) := by omega
        rw [harith]

/-- Helper: with `cv` unseen and exactly two `cv` cells, the event scan
emits exactly one issue carrying the first and second positions. -/
theorem Code2.dupEventsScan_two :
    ∀ (cs : List (Option String)) (seen : List (Option String × Nat)) (k : Nat)
      (cv : Option String),
      List.lookup cv seen = none →
      occCount cv cs = 2 →
      (∀ c : Option String, c ≠ cv → occCount c cs ≤ 1) →
      (∀ c : Option String, (List.lookup c seen).isSome = true → c ≠ cv → occCount c cs = 0) →
      Code2.dupEventsScan seen k cs =
        [Code2.mkDuplicateId cv (k + firstIdx cv cs) (k + secondIdx cv cs)] := by
  intro cs
  induction cs with
  | nil =>
    intro seen k cv _ h2 _ _
    rw [occCount] at h2
    omega
  | cons c rest ih =>
    intro seen k cv hlk h2 hle h0
    by_cases hc : c = cv
    · subst hc
      simp only [Code2.dupEventsScan, hlk]
      rw [occCount_cons_self] at h2
      have hlk2 : List.lookup c (seen ++ [(c, k)]) = some k := by
        rw [lookup_append_none c seen _ hlk]
        exact lookup_singleton_self c k
      have hle' : ∀ d : Option String, d ≠ c → occCount d rest ≤ 1 := by
        intro d hd
        have h := hle d hd
        rwa [occCount_cons_ne _ _ _ (Ne.symm hd)] at h
      have h0' : ∀ d : Option String, (List.lookup d (seen ++ [(c, k)])).isSome = true →
          d ≠ c → occCount d rest = 0 := by
        intro d hd hdv
        cases hds : List.lookup d seen with
        | some x =>
          have h := h0 d (by rw [hds]; rfl) hdv
          rwa [occCount_cons_ne _ _ _ (Ne.symm hdv)] at h
        | none =>
          rw [lookup_append_none d seen _ hds, lookup_singleton_ne d c k hdv] at hd
          simp at hd
      rw [Code2.dupEventsScan_one rest (seen ++ [(c, k)]) (k + 1) c k hlk2 (by omega) hle' h0']
      rw [firstIdx_cons_self, secondIdx_cons_self]
      have ha0 : k + 0 = k := Nat.add_zero k
      have harith : k + 1 + firstIdx c rest = k + (firstIdx c rest + 1) := by omega
      rw [ha0, harith]
    · cases hl : List.lookup c seen with
      | some fi =>
        have h := h0 c (by rw [hl]; rfl) hc
        rw [occCount_cons_self] at h
        omega
      | none =>
        simp only [Code2.dupEventsScan, hl]
        have hlk2 : List.lookup cv (seen ++ [(c, k)]) = none := by
          rw [lookup_append_none cv seen _ hlk]
          exact lookup_singleton_ne cv c k (Ne.symm hc)
        have h2' : occCount cv rest = 2 := by rwa [occCount_cons_ne _ _ _ hc] at h2
        have hle' : ∀ d : Option String, d ≠ cv → occCount d rest ≤ 1 := by
          intro d hd
          have h := hle d hd
          by_cases he : c = d
          · subst he
            rw [occCount_cons_self] at h
            omega
          · rwa [occCount_cons_ne _ _ _ he] at h
        have h0' : ∀ d : Option String, (List.lookup d (seen ++ [(c, k)])).isSome = true →
            d ≠ cv → occCount d rest = 0 := by
          intro d hd hdv
          by_cases he : d = c
          · subst he
            have h := hle d hdv
            rw [occCount_cons_self] at h
            omega
          · cases hds : List.lookup d seen with
            | some x =>
              have h := h0 d (by rw [hds]; rfl) hdv
              rwa [occCount_cons_ne _ _ _ (Ne.symm he)] at h
            | none =>
              rw [lookup_append_none d seen _ hds, lookup_singleton_ne d c k he] at hd
              simp at hd
        rw [ih (seen ++ [(c, k)]) (k + 1) cv hlk2 h2' hle' h0']
        rw [firstIdx_cons_ne _ _ _ hc, secondIdx_cons_ne _ _ _ hc]
        have ha1 : k + 1 + firstIdx cv rest = k + (firstIdx cv rest + 1) := by omega
        have ha2 : k + 1 + secondIdx cv rest = k + (secondIdx cv rest + 1) := by omega
        rw [ha1, ha2]

/-- C6 (amended): the analysis emits exactly one `DUPLICATE_ID` error
when exactly two rows carry the same loadId.  In `api.gs validateSheet`
its `rows` carries only the repeat row (second occurrence, shifted to its
sheet row number); in `Code.gs analyzeSheet`, the duplicate check over
the built loads array emits one issue whose `rows` carries both the first
and the repeat positions (shifted by 2 — these equal the sheet row
numbers exactly when every row contributed a load). -/
theorem c6_duplicate_amended :
    (∀ (hr : List String) (data : List (List String)) (v : String),
        ((Api.mapHeaders hr).2.any (fun i => i.severity.isError)) = false →
        occCount (some v) (data.map (Api.loadIdCell hr (Api.mapHeaders hr).1)) = 2 →
        (∀ w : String, w ≠ v →
            occCount (some w) (data.map (Api.loadIdCell hr (Api.mapHeaders hr).1)) ≤ 1) →
        (Api.validateSheet hr data).issues.filter (fun i => i.code == "DUPLICATE_ID") =
          [Api.mkDuplicateId v
            (secondIdx (some v) (data.map (Api.loadIdCell hr (Api.mapHeaders hr).1)) + 2)
            ((Api.mapHeaders hr).1.lookup "loadId")]) ∧
    (∀ (loads : List Code2.Load) (v : String),
        occCount (some v) (loads.map Code2.loadIdOf) = 2 →
        (∀ c : Option String, c ≠ some v → occCount c (loads.map Code2.loadIdOf) ≤ 1) →
        (Code2.dupPhase [] loads).map Prod.snd =
          [Code2.mkDuplicateId (some v)
            (firstIdx (some v) (loads.map Code2.loadIdOf))
            (secondIdx (some v) (loads.map Code2.loadIdOf))]) := by
  constructor
  · intro hr data v h h2 hle
    simp only [Api.validateSheet]
    rw [if_neg (by rw [h]; simp)]
    simp only
    rw [Api.fold_issues, List.filter_append, Api.mapHeaders_no_error hr h]
    simp only [List.filter_nil, List.nil_append, List.enum]
    rw [Api.filter_dup_trace hr _ data 0 [] []]
    rw [Api.dupScan_two _ _ [] 0 v (List.not_mem_nil v) h2 hle
      (fun w hw _ => absurd hw (List.not_mem_nil w))]
    rw [Nat.zero_add]
  · intro loads v h2 hle
    unfold Code2.dupPhase
    simp only [List.enum]
    rw [Code2.dupPhase_scan loads [] [] 0]
    rw [Code2.dupEventsScan_two (loads.map Code2.loadIdOf) [] 0 (some v) rfl h2 hle
      (fun c hc _ => by simp [List.lookup] at hc)]
    rw [Nat.zero_add, Nat.zero_add]
    rfl

theorem c6_duplicate_amended_witness :
    (Api.validateSheet
      ["Load ID","From","PU Time","To","DEL Time","Status","Driver","Unit","Customer"]
      [["TL123456","A st","2025-09-10T14:00:00Z","B st","2025-09-11T16:00:00Z","Pending","John","U1","Acme"],
       ["TL123456","C st","2025-09-12T14:00:00Z","D st","2025-09-13T16:00:00Z","Pending","Jane","U2","Beta"]]).issues.filter
        (fun i => i.code == "DUPLICATE_ID") =
      [Api.mkDuplicateId "TL123456"
        (secondIdx (some "TL123456")
          (([["TL123456","A st","2025-09-10T14:00:00Z","B st","2025-09-11T16:00:00Z","Pending","John","U1","Acme"],
             ["TL123456","C st","2025-09-12T14:00:00Z","D st","2025-09-13T16:00:00Z","Pending","Jane","U2","Beta"]] :
              List (List String)).map
            (Api.loadIdCell ["Load ID","From","PU Time","To","DEL Time","Status","Driver","Unit","Customer"]
              (Api.mapHeaders ["Load ID","From","PU Time","To","DEL Time","Status","Driver","Unit","Customer"]).1)) + 2)
        ((Api.mapHeaders ["Load ID","From","PU Time","To","DEL Time","Status","Driver","Unit","Customer"]).1.lookup "loadId")] :=
  c6_duplicate_amended.1
    ["Load ID","From","PU Time","To","DEL Time","Status","Driver","Unit","Customer"]
    [["TL123456","A st","2025-09-10T14:00:00Z","B st","2025-09-11T16:00:00Z","Pending","John","U1","Acme"],
     ["TL123456","C st","2025-09-12T14:00:00Z","D st","2025-09-13T16:00:00Z","Pending","Jane","U2","Beta"]]
    "TL123456" (by decide) (by decide)
    (by
      intro w hw
      have hcells :
          ([["TL123456","A st","2025-09-10T14:00:00Z","B st","2025-09-11T16:00:00Z","Pending","John","U1","Acme"],
            ["TL123456","C st","2025-09-12T14:00:00Z","D st","2025-09-13T16:00:00Z","Pending","Jane","U2","Beta"]] :
             List (List String)).map
            (Api.loadIdCell ["Load ID","From","PU Time","To","DEL Time","Status","Driver","Unit","Customer"]
              (Api.mapHeaders ["Load ID","From","PU Time","To","DEL Time","Status","Driver","Unit","Customer"]).1) =
          [some "TL123456", some "TL123456"] := by decide
      rw [hcells]
      have hne : (some "TL123456" : Option String) ≠ some w := some_ne_of_ne (Ne.symm hw)
      simp [occCount, hne])

/-- C4: the claim says every `rows` array after grouping is
duplicate-free.  A single issue whose own `rows` already holds a
duplicate passes through `groupIssues` verbatim: its key occurs once, so
the `Set`-based merge never runs. -/
theorem c4_group_rows_counterexample :
    (Code1.groupIssues
      [{ code := "X", severity := .warn, message := "m", rows := [5, 5] }]).map
        (fun i => i.rows) = [[5, 5]] ∧
    ¬ ([5, 5] : List Nat).Nodup := by
  refine ⟨by decide, by decide⟩

theorem dedupAux_mem {α : Type} [DecidableEq α] (x : α) :
    ∀ (l seen : List α), x ∈ dedupAux seen l ↔ x ∈ l ∧ x ∉ seen := by
  intro l
  induction l with
  | nil => intro seen; simp [dedupAux]
  | cons a rest ih =>
    intro seen
    by_cases ha : a ∈ seen
    · rw [dedupAux, if_pos ha, ih]
      constructor
      · rintro ⟨hx, hns⟩
        exact ⟨List.mem_cons_of_mem a hx, hns⟩
      · rintro ⟨hx, hns⟩
        rcases List.mem_cons.mp hx with hx' | hx'
        · subst hx'; exact absurd ha hns
        · exact ⟨hx', hns⟩
    · rw [dedupAux, if_neg ha]
      constructor
      · intro hx
        rcases List.mem_cons.mp hx with hx' | hx'
        · subst hx'; exact ⟨List.mem_cons_self _ _, ha⟩
        · rcases (ih (a :: seen)).mp hx' with ⟨h1, h2⟩
          simp only [List.mem_cons, not_or] at h2
          exact ⟨List.mem_cons_of_mem a h1, h2.2⟩
      · rintro ⟨hx, hns⟩
        rcases List.mem_cons.mp hx with hx' | hx'
        · subst hx'; exact List.mem_cons_self _ _
        · by_cases hxa : x = a
          · subst hxa; exact List.mem_cons_self _ _
          · exact List.mem_cons_of_mem a ((ih (a :: seen)).mpr
              ⟨hx', by simp only [List.mem_cons, not_or]; exact ⟨hxa, hns⟩⟩)

theorem dedupAux_nodup {α : Type} [DecidableEq α] :
    ∀ (l seen : List α), (dedupAux seen l).Nodup := by
  intro l
  induction l with
  | nil => intro seen; exact List.nodup_nil
  | cons a rest ih =>
    intro seen
    by_cases ha : a ∈ seen
    · rw [dedupAux, if_pos ha]; exact ih seen
    · rw [dedupAux, if_neg ha]
      refine List.nodup_cons.mpr ⟨?_, ih (a :: seen)⟩
      intro hmem
      exact absurd (List.mem_cons_self a seen) ((dedupAux_mem a rest (a :: seen)).mp hmem).2

theorem jsSetDedup_nodup {α : Type} [DecidableEq α] (l : List α) : (jsSetDedup l).Nodup :=
  dedupAux_nodup l []

theorem jsSetDedup_mem {α : Type} [DecidableEq α] (x : α) (l : List α) :
    x ∈ jsSetDedup l ↔ x ∈ l := by
  rw [jsSetDedup, dedupAux_mem]
  simp

theorem dedupAux_absorb {α : Type} [DecidableEq α] :
    ∀ (a b seen : List α), dedupAux seen (dedupAux seen a ++ b) = dedupAux seen (a ++ b) := by
  intro a
  induction a with
  | nil => intro b seen; rfl
  | cons x rest ih =>
    intro b seen
    by_cases hx : x ∈ seen
    · rw [dedupAux, if_pos hx, List.cons_append, dedupAux, if_pos hx, ih]
    · rw [dedupAux, if_neg hx, List.cons_append, dedupAux, if_neg hx, List.cons_append,
        dedupAux, if_neg hx, ih]

theorem jsSetDedup_absorb {α : Type} [DecidableEq α] (a b : List α) :
    jsSetDedup (jsSetDedup a ++ b) = jsSetDedup (a ++ b) :=
  dedupAux_absorb a b []

theorem dedupAux_snoc {α : Type} [DecidableEq α] (a : α) :
    ∀ (l seen : List α),
      dedupAux seen (l ++ [a]) =
        if a ∈ seen ∨ a ∈ l then dedupAux seen l else dedupAux seen l ++ [a] := by
  intro l
  induction l with
  | nil =>
    intro seen
    by_cases ha : a ∈ seen
    · simp [dedupAux, ha]
    · simp [dedupAux, ha]
  | cons x rest ih =>
    intro seen
    by_cases hx : x ∈ seen
    · have hiff : (a ∈ seen ∨ a ∈ x :: rest) ↔ (a ∈ seen ∨ a ∈ rest) := by
        constructor
        · rintro (h | h)
          · exact Or.inl h
          · rcases List.mem_cons.mp h with h' | h'
            · exact Or.inl (h' ▸ hx)
            · exact Or.inr h'
        · rintro (h | h)
          · exact Or.inl h
          · exact Or.inr (List.mem_cons_of_mem x h)
      rw [List.cons_append]
      rw [show dedupAux seen (x :: (rest ++ [a])) = dedupAux seen (rest ++ [a]) from by
        rw [dedupAux, if_pos hx]]
      rw [show dedupAux seen (x :: rest) = dedupAux seen rest from by
        rw [dedupAux, if_pos hx]]
      rw [ih]
      by_cases hcond : a ∈ seen ∨ a ∈ rest
      · rw [if_pos hcond, if_pos (hiff.mpr hcond)]
      · rw [if_neg hcond, if_neg (fun hcon => hcond (hiff.mp hcon))]
    · have hiff : (a ∈ seen ∨ a ∈ x :: rest) ↔ (a ∈ x :: seen ∨ a ∈ rest) := by
        constructor
        · rintro (h | h)
          · exact Or.inl (List.mem_cons_of_mem x h)
          · rcases List.mem_cons.mp h with h' | h'
            · exact Or.inl (h' ▸ List.mem_cons_self x seen)
            · exact Or.inr h'
        · rintro (h | h)
          · rcases List.mem_cons.mp h with h' | h'
            · exact Or.inr (h' ▸ List.mem_cons_self x rest)
            · exact Or.inl h'
          · exact Or.inr (List.mem_cons_of_mem x h)
      rw [List.cons_append]
      rw [show dedupAux seen (x :: (rest ++ [a])) = x :: dedupAux (x :: seen) (rest ++ [a]) from by
        rw [dedupAux, if_neg hx]]
      rw [show dedupAux seen (x :: rest) = x :: dedupAux (x :: seen) rest from by
        rw [dedupAux, if_neg hx]]
      rw [ih]
      by_cases hcond : a ∈ x :: seen ∨ a ∈ rest
      · rw [if_pos hcond, if_pos (hiff.mpr hcond)]
      · rw [if_neg hcond, if_neg (fun hcon => hcond (hiff.mp hcon))]
        rfl

theorem jsSetDedup_snoc {α : Type} [DecidableEq α] (a : α) (l : List α) :
    jsSetDedup (l ++ [a]) = if a ∈ l then jsSetDedup l else jsSetDedup l ++ [a] := by
  rw [jsSetDedup, dedupAux_snoc]
  simp [jsSetDedup]

/-- Helper: updating `rows` does not change an issue's grouping key. -/
theorem Code1.key_rows_update (j : Code1.Issue) (r : List Nat) :
    Code1.key { j with rows := r } = Code1.key j := rfl

/-- Helper: inserting under a fresh key appends the entry. -/
theorem Code1.addIssue_not_mem (i : Code1.Issue) :
    ∀ (acc : List (String × Code1.Issue)), Code1.key i ∉ acc.map Prod.fst →
      Code1.addIssue acc i = acc ++ [(Code1.key i, i)] := by
  intro acc
  induction acc with
  | nil => intro _; rfl
  | cons p rest ih =>
    intro h
    simp only [List.map_cons, List.mem_cons, not_or] at h
    obtain ⟨k, j⟩ := p
    rw [Code1.addIssue, if_neg (Ne.symm h.1)]
    rw [ih h.2]
    rfl

/-- Helper: the keys of the map after an insertion. -/
theorem Code1.addIssue_keys (i : Code1.Issue) :
    ∀ (acc : List (String × Code1.Issue)),
      (Code1.addIssue acc i).map Prod.fst =
        if Code1.key i ∈ acc.map Prod.fst then acc.map Prod.fst
        else acc.map Prod.fst ++ [Code1.key i] := by
  intro acc
  induction acc with
  | nil => rfl
  | cons p rest ih =>
    obtain ⟨k, j⟩ := p
    by_cases hk : k = Code1.key i
    · subst hk
      rw [Code1.addIssue, if_pos rfl]
      simp
    · rw [Code1.addIssue, if_neg hk]
      simp only [List.map_cons, List.mem_cons]
      rw [ih]
      by_cases hmem : Code1.key i ∈ rest.map Prod.fst
      · rw [if_pos hmem, if_pos (Or.inr hmem)]
      · rw [if_neg hmem, if_neg (by rintro (h | h); exacts [hk h.symm, hmem h])]
        rfl

/-- Helper: inserting under a present key merges `rows` into the first
entry holding that key and leaves everything else unchanged. -/
theorem Code1.addIssue_mem (i : Code1.Issue) :
    ∀ (acc : List (String × Code1.Issue)), Code1.key i ∈ acc.map Prod.fst →
      ∃ (acc1 : List (String × Code1.Issue)) (j : Code1.Issue)
        (acc2 : List (String × Code1.Issue)),
        acc = acc1 ++ (Code1.key i, j) :: acc2 ∧
        Code1.key i ∉ acc1.map Prod.fst ∧
        Code1.addIssue acc i =
          acc1 ++ (Code1.key i, { j with rows := jsSetDedup (j.rows ++ i.rows) }) :: acc2 := by
  intro acc
  induction acc with
  | nil => intro h; simp at h
  | cons p rest ih =>
    intro h
    obtain ⟨k, j⟩ := p
    by_cases hk : k = Code1.key i
    · subst hk
      refine ⟨[], j, rest, by simp, by simp, ?_⟩
      rw [Code1.addIssue, if_pos rfl]
      rfl
    · have hmem : Code1.key i ∈ rest.map Prod.fst := by
        simp only [List.map_cons, List.mem_cons] at h
        rcases h with h' | h'
        · exact absurd h'.symm hk
        · exact h'
      obtain ⟨acc1, j', acc2, heq, hnm, hadd⟩ := ih hmem
      refine ⟨(k, j) :: acc1, j', acc2, by rw [heq]; rfl, ?_, ?_⟩
      · simp only [List.map_cons, List.mem_cons, not_or]
        exact ⟨fun hc => hk hc.symm, hnm⟩
      · rw [Code1.addIssue, if_neg hk, hadd]
        rfl

/-- The per-entry specification of the grouping map: the entry's scalar
fields come from the first issue with its key, a key hit exactly once is
stored verbatim, and a key hit at least twice stores the deduplicated
union of all its row lists. -/
def Code1.entryOk (x : List Code1.Issue) (p : String × Code1.Issue) : Prop :=
  ∃ h : Code1.Issue,
    (x.filter (fun j => Code1.key j == p.1)).head? = some h ∧
    p.2.code = h.code ∧ p.2.column = h.column ∧ p.2.severity = h.severity ∧
    p.2.message = h.message ∧ p.2.suggestion = h.suggestion ∧
    ((x.filter (fun j => Code1.key j == p.1)).length = 1 → p.2 = h) ∧
    (2 ≤ (x.filter (fun j => Code1.key j == p.1)).length →
      p.2.rows = jsSetDedup ((x.filter (fun j => Code1.key j == p.1)).flatMap (fun j => j.rows)))

/-- The full invariant of the grouping fold. -/
def Code1.groupInv (x : List Code1.Issue) (acc : List (String × Code1.Issue)) : Prop :=
  (∀ p ∈ acc, p.1 = Code1.key p.2) ∧
  acc.map Prod.fst = jsSetDedup (x.map Code1.key) ∧
  (∀ p ∈ acc, Code1.entryOk x p)

/-- Helper: an entry keyed differently from the appended issue keeps its
specification. -/
theorem Code1.entryOk_snoc_ne (x : List Code1.Issue) (i : Code1.Issue)
    (p : String × Code1.Issue) (hne : p.1 ≠ Code1.key i) (h : Code1.entryOk x p) :
    Code1.entryOk (x ++ [i]) p := by
  obtain ⟨h0, hh, hc, hcol, hs, hm, hsg, h1, h2⟩ := h
  have hfil : (x ++ [i]).filter (fun j => Code1.key j == p.1) =
      x.filter (fun j => Code1.key j == p.1) := by
    rw [List.filter_append]
    have hone : [i].filter (fun j => Code1.key j == p.1) = [] := by
      simp [List.filter, beq_eq_false_iff_ne.mpr (fun hc2 => hne hc2.symm)]
    rw [hone, List.append_nil]
  exact ⟨h0, by rw [hfil]; exact hh, hc, hcol, hs, hm, hsg,
    fun hl => h1 (by rwa [hfil] at hl), fun hl => by rw [hfil]; exact h2 (by rwa [hfil] at hl)⟩

/-- Helper: a freshly inserted entry satisfies its specification. -/
theorem Code1.entryOk_new (x : List Code1.Issue) (i : Code1.Issue)
    (hnm : Code1.key i ∉ x.map Code1.key) :
    Code1.entryOk (x ++ [i]) (Code1.key i, i) := by
  have hx : x.filter (fun j => Code1.key j == Code1.key i) = [] := by
    refine List.filter_eq_nil_iff.mpr ?_
    intro a ha
    simp only [beq_iff_eq]
    intro hcon
    exact hnm (hcon ▸ List.mem_map_of_mem Code1.key ha)
  have hfil : (x ++ [i]).filter (fun j => Code1.key j == Code1.key i) = [i] := by
    rw [List.filter_append, hx]
    simp [List.filter]
  refine ⟨i, by rw [hfil]; rfl, rfl, rfl, rfl, rfl, rfl, fun _ => rfl, fun hl => ?_⟩
  rw [hfil] at hl
  simp at hl

/-- Helper: merging the appended issue's rows into the entry holding its
key preserves the specification. -/
theorem Code1.entryOk_merge (x : List Code1.Issue) (i j : Code1.Issue)
    (h : Code1.entryOk x (Code1.key i, j)) :
    Code1.entryOk (x ++ [i]) (Code1.key i, { j with rows := jsSetDedup (j.rows ++ i.rows) }) := by
  obtain ⟨h0, hh, hc, hcol, hs, hm, hsg, h1, h2⟩ := h
  have hfil : (x ++ [i]).filter (fun j' => Code1.key j' == Code1.key i) =
      x.filter (fun j' => Code1.key j' == Code1.key i) ++ [i] := by
    rw [List.filter_append]
    congr 1
    simp [List.filter]
  obtain ⟨t, hxfil⟩ : ∃ t, x.filter (fun j' => Code1.key j' == Code1.key i) = h0 :: t := by
    cases hxf : x.filter (fun j' => Code1.key j' == Code1.key i) with
    | nil => rw [hxf] at hh; simp at hh
    | cons a b =>
      rw [hxf] at hh
      simp only [List.head?] at hh
      cases hh
      exact ⟨b, rfl⟩
  refine ⟨h0, ?_, hc, hcol, hs, hm, hsg, ?_, ?_⟩
  · rw [hfil, hxfil]
    rfl
  · intro hl
    rw [hfil, hxfil] at hl
    simp [List.length_append] at hl
  · intro _
    rw [hfil, hxfil]
    rw [List.flatMap_append]
    have hone : ([i].flatMap (fun j' => j'.rows)) = i.rows := by simp
    rw [hone]
    cases t with
    | nil =>
      have hj : j = h0 := h1 (by rw [hxfil]; rfl)
      subst hj
      simp
    | cons b t' =>
      have hlen : 2 ≤ (x.filter (fun j' => Code1.key j' == Code1.key i)).length := by
        rw [hxfil]
        simp
      have hjr := h2 hlen
      rw [hxfil] at hjr
      rw [show ({ j with rows := jsSetDedup (j.rows ++ i.rows) } : Code1.Issue).rows =
        jsSetDedup (j.rows ++ i.rows) from rfl]
      rw [hjr, jsSetDedup_absorb]

/-- Helper: one insertion preserves the grouping invariant. -/
theorem Code1.groupInv_step (x : List Code1.Issue) (acc : List (String × Code1.Issue))
    (i : Code1.Issue) (h : Code1.groupInv x acc) :
    Code1.groupInv (x ++ [i]) (Code1.addIssue acc i) := by
  obtain ⟨ha, hb, hc⟩ := h
  by_cases hmem : Code1.key i ∈ acc.map Prod.fst
  · obtain ⟨acc1, j, acc2, heq, hnm1, hadd⟩ := Code1.addIssue_mem i acc hmem
    have hkx : Code1.key i ∈ x.map Code1.key := by
      rw [hb] at hmem
      exact (jsSetDedup_mem _ _).mp hmem
    have hnodup : (acc.map Prod.fst).Nodup := by
      rw [hb]
      exact jsSetDedup_nodup _
    have hnm2 : Code1.key i ∉ acc2.map Prod.fst := by
      rw [heq] at hnodup
      simp only [List.map_append, List.map_cons] at hnodup
      have hd := List.disjoint_of_nodup_append hnodup
      intro hcon
      have hnodup2 := List.Nodup.of_append_right hnodup
      exact (List.nodup_cons.mp hnodup2).1 hcon
    have hmemj : (Code1.key i, j) ∈ acc := by
      rw [heq]
      exact List.mem_append_right _ (List.mem_cons_self _ _)
    refine ⟨?_, ?_, ?_⟩
    · intro p hp
      rw [hadd] at hp
      rcases List.mem_append.mp hp with hp1 | hp2
      · exact ha p (by rw [heq]; exact List.mem_append_left _ hp1)
      · rcases List.mem_cons.mp hp2 with hpe | hp3
        · rw [hpe]
          have := ha (Code1.key i, j) hmemj
          simpa using this
        · exact ha p (by
            rw [heq]
            exact List.mem_append_right _ (List.mem_cons_of_mem _ hp3))
    · rw [hadd]
      have hkeys : (acc1 ++ (Code1.key i,
          { j with rows := jsSetDedup (j.rows ++ i.rows) }) :: acc2).map Prod.fst =
          acc.map Prod.fst := by
        rw [heq]
        simp [List.map_append]
      rw [hkeys, hb, List.map_append]
      rw [show ([i].map Code1.key) = [Code1.key i] from rfl]
      rw [jsSetDedup_snoc]
      rw [if_pos hkx]
    · intro p hp
      rw [hadd] at hp
      rcases List.mem_append.mp hp with hp1 | hp2
      · have hpk : p.1 ≠ Code1.key i :=
          fun hc2 => hnm1 (hc2 ▸ List.mem_map_of_mem Prod.fst hp1)
        exact Code1.entryOk_snoc_ne x i p hpk
          (hc p (by rw [heq]; exact List.mem_append_left _ hp1))
      · rcases List.mem_cons.mp hp2 with hpe | hp3
        · rw [hpe]
          exact Code1.entryOk_merge x i j (hc (Code1.key i, j) hmemj)
        · have hpk : p.1 ≠ Code1.key i :=
            fun hc2 => hnm2 (hc2 ▸ List.mem_map_of_mem Prod.fst hp3)
          exact Code1.entryOk_snoc_ne x i p hpk
            (hc p (by
              rw [heq]
              exact List.mem_append_right _ (List.mem_cons_of_mem _ hp3)))
  · rw [Code1.addIssue_not_mem i acc hmem]
    have hkx : Code1.key i ∉ x.map Code1.key :=
      fun hc2 => hmem (by rw [hb]; exact (jsSetDedup_mem _ _).mpr hc2)
    refine ⟨?_, ?_, ?_⟩
    · intro p hp
      rcases List.mem_append.mp hp with hp1 | hp2
      · exact ha p hp1
      · rw [List.mem_singleton.mp hp2]
    · rw [List.map_append, hb, List.map_append]
      rw [show ([i].map Code1.key) = [Code1.key i] from rfl]
      rw [show ([(Code1.key i, i)].map Prod.fst) = [Code1.key i] from rfl]
      rw [jsSetDedup_snoc, if_neg hkx]
    · intro p hp
      rcases List.mem_append.mp hp with hp1 | hp2
      · have hpk : p.1 ≠ Code1.key i := by
          intro hc2
          exact hmem (hc2 ▸ List.mem_map_of_mem Prod.fst hp1)
        exact Code1.entryOk_snoc_ne x i p hpk (hc p hp1)
      · rw [List.mem_singleton.mp hp2]
        exact Code1.entryOk_new x i hkx

/-- Helper: the grouping fold satisfies the invariant. -/
theorem Code1.groupInv_fold : ∀ x : List Code1.Issue,
    Code1.groupInv x (x.foldl Code1.addIssue []) := by
  intro x
  induction x using List.reverseRecOn with
  | nil => exact ⟨by simp, rfl, by simp⟩
  | append_singleton xs i ih =>
    simp only [List.foldl_append, List.foldl_cons, List.foldl_nil]
    exact Code1.groupInv_step xs _ i ih

/-- Helper: the grouped issues carry pairwise distinct keys. -/
theorem Code1.groupIssues_keys_nodup (x : List Code1.Issue) :
    ((Code1.groupIssues x).map Code1.key).Nodup := by
  obtain ⟨ha, hb, _⟩ := Code1.groupInv_fold x
  have hmap : (Code1.groupIssues x).map Code1.key = (x.foldl Code1.addIssue []).map Prod.fst := by
    rw [Code1.groupIssues, List.map_map]
    exact List.map_congr_left (fun p hp => (ha p hp).symm)
  rw [hmap, hb]
  exact jsSetDedup_nodup _

/-- Helper: folding a list with pairwise distinct keys just appends the
entries. -/
theorem Code1.fold_of_nodup_keys :
    ∀ (y : List Code1.Issue) (acc : List (String × Code1.Issue)),
      (acc.map Prod.fst ++ y.map Code1.key).Nodup →
      y.foldl Code1.addIssue acc = acc ++ y.map (fun i => (Code1.key i, i)) := by
  intro y
  induction y with
  | nil => intro acc _; simp
  | cons i rest ih =>
    intro acc hnd
    simp only [List.foldl_cons]
    have hki : Code1.key i ∉ acc.map Prod.fst := by
      intro hmem
      have hd := List.disjoint_of_nodup_append hnd
      exact hd hmem (List.mem_cons_self _ _)
    rw [Code1.addIssue_not_mem i acc hki]
    rw [ih (acc ++ [(Code1.key i, i)]) (by
      simp only [List.map_append, List.map_cons] at hnd ⊢
      simpa [List.append_assoc] using hnd)]
    simp

/-- C4 (amended): `groupIssues` (src/src/Code.gs lines 321-334) is
idempotent and lists one output issue per distinct `(code, column)` key in
order of first appearance; each output issue takes `code`, `column`,
`severity`, `message` and `suggestion` from the first input occurrence of
its key, and when the key occurs at least twice the output `rows` is the
duplicate-free first-appearance union of the occurrences' rows (hence
itself duplicate-free) -- but a key occurring exactly once keeps its issue
verbatim, `rows` included, so pre-existing duplicates in a lone issue's
`rows` survive grouping. -/
theorem c4_group_amended :
    (∀ x : List Code1.Issue,
      Code1.groupIssues (Code1.groupIssues x) = Code1.groupIssues x) ∧
    (∀ x : List Code1.Issue,
      (Code1.groupIssues x).map Code1.key = jsSetDedup (x.map Code1.key)) ∧
    (∀ (x : List Code1.Issue) (i : Code1.Issue), i ∈ Code1.groupIssues x →
      Code1.entryOk x (Code1.key i, i) ∧
      (2 ≤ (x.filter (fun j => Code1.key j == Code1.key i)).length →
        List.Nodup i.rows)) := by
  have hmap : ∀ x : List Code1.Issue,
      (Code1.groupIssues x).map Code1.key = jsSetDedup (x.map Code1.key) := by
    intro x
    obtain ⟨ha, hb, _⟩ := Code1.groupInv_fold x
    have h1 : (Code1.groupIssues x).map Code1.key =
        (x.foldl Code1.addIssue []).map Prod.fst := by
      rw [Code1.groupIssues, List.map_map]
      exact List.map_congr_left (fun p hp => (ha p hp).symm)
    rw [h1, hb]
  refine ⟨?_, hmap, ?_⟩
  · intro x
    have hnd : (([] : List (String × Code1.Issue)).map Prod.fst ++
        (Code1.groupIssues x).map Code1.key).Nodup := by
      simpa using Code1.groupIssues_keys_nodup x
    have hfold := Code1.fold_of_nodup_keys (Code1.groupIssues x) [] hnd
    calc Code1.groupIssues (Code1.groupIssues x)
        = ((Code1.groupIssues x).foldl Code1.addIssue []).map Prod.snd := rfl
      _ = (([] ++ (Code1.groupIssues x).map
            (fun i => (Code1.key i, i))).map Prod.snd) := by rw [hfold]
      _ = Code1.groupIssues x := by
          rw [List.nil_append, List.map_map]
          have hcomp : (Prod.snd ∘ fun i : Code1.Issue => (Code1.key i, i)) =
              (id : Code1.Issue → Code1.Issue) := rfl
          rw [hcomp, List.map_id]
  · intro x i hi
    obtain ⟨ha, hb, hc⟩ := Code1.groupInv_fold x
    rw [Code1.groupIssues] at hi
    obtain ⟨p, hpmem, hpi⟩ := List.mem_map.mp hi
    have hpeq : p = (Code1.key i, i) := by
      have h1 := ha p hpmem
      have h2 : p.2 = i := hpi
      have h3 : p.1 = Code1.key i := by rw [h1, h2]
      calc p = (p.1, p.2) := rfl
        _ = (Code1.key i, i) := by rw [h2, h3]
    have hok := hc p hpmem
    rw [hpeq] at hok
    refine ⟨hok, ?_⟩
    intro hlen
    obtain ⟨h0, hh, hcode, hcol, hsev, hmsg, hsug, hone, hrows⟩ := hok
    have hr : i.rows = jsSetDedup
        ((x.filter (fun j => Code1.key j == Code1.key i)).flatMap
          (fun j => j.rows)) := hrows hlen
    rw [hr]
    exact jsSetDedup_nodup _

/-- First input issue of the C4 witness scenario. -/
def c4wFirst : Code1.Issue :=
  { code := "E", severity := Severity.warn, message := "m1", rows := [2],
    column := some "c", suggestion := some "s1" }

/-- Second input issue of the C4 witness scenario: same key, other fields
differ. -/
def c4wSecond : Code1.Issue :=
  { code := "E", severity := Severity.error, message := "m2", rows := [2, 3],
    column := some "c", suggestion := some "s2" }

/-- The grouped issue the C4 witness scenario produces: first occurrence's
fields with the deduplicated row union. -/
def c4wMerged : Code1.Issue :=
  { code := "E", severity := Severity.warn, message := "m1", rows := [2, 3],
    column := some "c", suggestion := some "s1" }

/-- C4 witness: two issues sharing the key `(E, c)` with rows `[2]` and
`[2, 3]` group into one issue carrying the first occurrence's fields and
the deduplicated union `[2, 3]`. -/
theorem c4_group_amended_witness :
    Code1.entryOk [c4wFirst, c4wSecond] (Code1.key c4wMerged, c4wMerged) ∧
    List.Nodup ([2, 3] : List Nat) := by
  have h := c4_group_amended.2.2 [c4wFirst, c4wSecond] c4wMerged (by decide)
  exact ⟨h.1, h.2 (by decide)⟩
